import Mathlib

/-!
Verification development for the clawgate agent gateway
(`src/python_template` of the repository).

Embedding conventions:
* JSON-ish dynamic values (`typing.Any`) become the inductive `PyVal`;
  Python dicts become association lists with first-occurrence lookup.
* Python exceptions become sum-typed results.
* The three regexes compiled in `core/policy.py` (`https?://\S+`, `<[^>]+>`,
  `\s+`) are embedded as the deterministic left-to-right scanners that
  realise `re.sub` for these patterns: `re.sub` scans positions left to
  right, at a match consumes it (greedily, which is deterministic for these
  patterns) and continues after it, otherwise moves one character on.
* `\s` is modelled by the ASCII whitespace characters.
-/

/-- Dynamic JSON-like values (`typing.Any` payloads in the Python code). -/
inductive PyVal where
  | str (s : String)
  | int (n : Int)
  | bool (b : Bool)
  | none
  | list (xs : List PyVal)
  | dict (kvs : List (String × PyVal))

/-- First-occurrence association lookup: the model of Python `dict.get`. -/
def alookup {α : Type} (l : List (String × α)) (k : String) : Option α :=
  match l with
  | [] => Option.none
  | (k', v) :: rest => if k' = k then some v else alookup rest k

/-- Python `d[k] = v`: update the value at the first occurrence of `k`
keeping its position, or append a fresh binding. -/
def aset {α : Type} (l : List (String × α)) (k : String) (v : α) :
    List (String × α) :=
  match l with
  | [] => [(k, v)]
  | (k', v') :: rest =>
    if k' = k then (k', v) :: rest else (k', v') :: aset rest k v

theorem alookup_aset_self {α : Type} (l : List (String × α)) (k : String)
    (v : α) : alookup (aset l k v) k = some v := by
  induction l with
  | nil => simp [aset, alookup]
  | cons hd tl ih =>
    obtain ⟨k', v'⟩ := hd
    by_cases h : k' = k <;> simp [aset, alookup, h, ih]

theorem alookup_aset_ne {α : Type} (l : List (String × α)) (k k' : String)
    (v : α) (hne : k ≠ k') : alookup (aset l k v) k' = alookup l k' := by
  induction l with
  | nil => simp [aset, alookup, hne]
  | cons hd tl ih =>
    obtain ⟨k₀, v₀⟩ := hd
    by_cases h : k₀ = k
    · subst h
      simp [aset, alookup, hne]
    · simp [aset, alookup, h, ih]

/-! ## Text sanitisation (`PolicyEngine._sanitize_text`, `core/policy.py`)

`_URL_PATTERN = https?://\S+`, `_HTML_TAG_PATTERN = <[^>]+>`,
`_WHITESPACE_PATTERN = \s+`.
-/

/-- ASCII model of Python regex `\s` / `str.strip()` whitespace. -/
def isPySpace (c : Char) : Bool :=
  c = ' ' || c = '\t' || c = '\n' || c = '\r' || c = '\x0b' || c = '\x0c'

/-- The scheme prefix matched by `https?://` at the head of `l`, with its
length: greedy `s?` prefers `https://` when both could start here (they
never both can). -/
def schemeLen (l : List Char) : Option Nat :=
  if l.take 7 = ['h', 't', 't', 'p', ':', '/', '/'] then some 7
  else if l.take 8 = ['h', 't', 't', 'p', 's', ':', '/', '/'] then some 8
  else Option.none

/-- Is the list non-empty with a non-whitespace head? -/
def nonspaceHead : List Char → Bool
  | [] => false
  | c :: _ => !isPySpace c

/-- Does `https?://\S+` match at the head of `l`?  The scheme must be
followed by at least one non-whitespace character. -/
def matchUrlAt (l : List Char) : Bool :=
  match schemeLen l with
  | some n => nonspaceHead (l.drop n)
  | Option.none => false

/-- Rest of the input after the greedy match of `https?://\S+` at the head:
`\S+` consumes every following non-whitespace character. -/
def consumeUrl (l : List Char) : List Char :=
  match schemeLen l with
  | some n => (l.drop n).dropWhile (fun c => !isPySpace c)
  | Option.none => l

theorem schemeLen_cases {l : List Char} {n : Nat} (h : schemeLen l = some n) :
    (n = 7 ∧ l.take 7 = ['h', 't', 't', 'p', ':', '/', '/']) ∨
      (n = 8 ∧ l.take 8 = ['h', 't', 't', 'p', 's', ':', '/', '/']) := by
  unfold schemeLen at h
  split at h
  · rename_i h7
    injection h with h
    exact Or.inl ⟨h.symm, h7⟩
  · split at h
    · rename_i h8
      injection h with h
      exact Or.inr ⟨h.symm, h8⟩
    · exact absurd h (by simp)

theorem matchUrlAt_scheme {l : List Char} {n : Nat}
    (hs : schemeLen l = some n) : matchUrlAt l = nonspaceHead (l.drop n) := by
  unfold matchUrlAt
  rw [hs]

theorem matchUrlAt_noscheme {l : List Char}
    (hs : schemeLen l = Option.none) : matchUrlAt l = false := by
  unfold matchUrlAt
  rw [hs]

theorem consumeUrl_scheme {l : List Char} {n : Nat}
    (hs : schemeLen l = some n) :
    consumeUrl l = (l.drop n).dropWhile (fun c => !isPySpace c) := by
  unfold consumeUrl
  rw [hs]

theorem consumeUrl_length_lt {l : List Char} (h : matchUrlAt l = true) :
    (consumeUrl l).length < l.length := by
  cases hs : schemeLen l with
  | none => rw [matchUrlAt_noscheme hs] at h; simp at h
  | some n =>
    rw [matchUrlAt_scheme hs] at h
    rw [consumeUrl_scheme hs]
    have hn : 0 < n := by
      rcases schemeLen_cases hs with ⟨rfl, -⟩ | ⟨rfl, -⟩ <;> omega
    have hdrop : l.drop n ≠ [] := by
      cases hd : l.drop n with
      | nil => rw [hd] at h; simp [nonspaceHead] at h
      | cons c t => simp
    have hpos : 0 < (l.drop n).length := List.length_pos.mpr hdrop
    have := (List.dropWhile_sublist (l := l.drop n)
      (p := fun c => !isPySpace c)).length_le
    have hln : n ≤ l.length := by
      by_contra hc
      push_neg at hc
      rw [List.drop_eq_nil_of_le (by omega)] at hdrop
      exact hdrop rfl
    simp only [List.length_drop] at *
    omega

/-- `re.sub(_URL_PATTERN, "", value)`: scan left to right, delete each
leftmost match of `https?://\S+`. -/
def urlRemove (l : List Char) : List Char :=
  match l with
  | [] => []
  | c :: rest =>
    if h : matchUrlAt (c :: rest) = true then urlRemove (consumeUrl (c :: rest))
    else c :: urlRemove rest
termination_by l.length
decreasing_by
  · exact consumeUrl_length_lt h
  · simp

theorem schemeLen_http (rest : List Char) :
    schemeLen (['h', 't', 't', 'p', ':', '/', '/'] ++ rest) = some 7 := by
  unfold schemeLen
  have h1 : (['h', 't', 't', 'p', ':', '/', '/'] ++ rest).take 7 =
      ['h', 't', 't', 'p', ':', '/', '/'] := List.take_left' rfl
  simp [h1]

theorem schemeLen_https (rest : List Char) :
    schemeLen (['h', 't', 't', 'p', 's', ':', '/', '/'] ++ rest) = some 8 := by
  unfold schemeLen
  have h1 : (['h', 't', 't', 'p', 's', ':', '/', '/'] ++ rest).take 7 =
      ['h', 't', 't', 'p', 's', ':', '/'] := by
    rw [List.take_append_eq_append_take]
    norm_num
  have h2 : (['h', 't', 't', 'p', 's', ':', '/', '/'] ++ rest).take 8 =
      ['h', 't', 't', 'p', 's', ':', '/', '/'] := List.take_left' rfl
  rw [h1, if_neg (by decide), h2, if_pos rfl]

/-- `matchUrlAt` characterised by the matched text standing at the head. -/
theorem matchUrlAt_iff {l : List Char} :
    matchUrlAt l = true ↔
      ∃ pre c, (pre = ['h', 't', 't', 'p', ':', '/', '/'] ∨
          pre = ['h', 't', 't', 'p', 's', ':', '/', '/']) ∧
        isPySpace c = false ∧ (pre ++ [c]) <+: l := by
  constructor
  · intro h
    cases hs : schemeLen l with
    | none => rw [matchUrlAt_noscheme hs] at h; simp at h
    | some n =>
      rw [matchUrlAt_scheme hs] at h
      cases hd : l.drop n with
      | nil => rw [hd] at h; simp [nonspaceHead] at h
      | cons c t =>
        rw [hd] at h
        simp only [nonspaceHead, Bool.not_eq_true'] at h
        refine ⟨l.take n, c, ?_, h, ?_⟩
        · rcases schemeLen_cases hs with ⟨rfl, h7⟩ | ⟨rfl, h8⟩
          · exact Or.inl h7
          · exact Or.inr h8
        · refine ⟨t, ?_⟩
          rw [List.append_assoc, List.singleton_append, ← hd,
            List.take_append_drop]
  · rintro ⟨pre, c, hpre, hc, t, hl⟩
    subst hl
    rcases hpre with rfl | rfl
    · rw [List.append_assoc, List.singleton_append,
        matchUrlAt_scheme (schemeLen_http (c :: t))]
      show nonspaceHead (c :: t) = true
      simp [nonspaceHead, hc]
    · rw [List.append_assoc, List.singleton_append,
        matchUrlAt_scheme (schemeLen_https (c :: t))]
      show nonspaceHead (c :: t) = true
      simp [nonspaceHead, hc]

/-- No position of `l` starts a match of `https?://\S+`. -/
def noUrl (l : List Char) : Prop := ∀ i, matchUrlAt (l.drop i) = false

/-- The non-whitespace prefix of a list. -/
def nsp (l : List Char) : List Char := l.takeWhile (fun c => !isPySpace c)

theorem prefix_takeWhile {α : Type} {p : α → Bool} :
    ∀ {q l : List α}, q <+: l → (∀ x ∈ q, p x = true) → q <+: l.takeWhile p := by
  intro q
  induction q with
  | nil => intro l _ _; exact List.nil_prefix
  | cons a q' ih =>
    intro l hq hall
    cases l with
    | nil => exact absurd (List.prefix_nil.mp hq) (by simp)
    | cons b l' =>
      rw [List.cons_prefix_cons] at hq
      obtain ⟨rfl, hq'⟩ := hq
      rw [List.takeWhile_cons, if_pos (by simp [hall a (by simp)])]
      exact List.cons_prefix_cons.mpr ⟨rfl, ih hq' (fun x hx => hall x (by simp [hx]))⟩

theorem takeWhile_dropWhile_nil {α : Type} (p : α → Bool) (l : List α) :
    (l.dropWhile p).takeWhile p = [] := by
  cases hd : l.dropWhile p with
  | nil => simp
  | cons c t =>
    have hc : p c = false := by
      have h := List.head_dropWhile_not p l (by simp [hd])
      simp only [hd, List.head_cons] at h
      simpa using h
    rw [List.takeWhile_cons, if_neg (by simp [hc])]

theorem nsp_consumeUrl {l : List Char} (h : matchUrlAt l = true) :
    nsp (consumeUrl l) = [] := by
  cases hs : schemeLen l with
  | none => rw [matchUrlAt_noscheme hs] at h; simp at h
  | some n =>
    rw [consumeUrl_scheme hs]
    exact takeWhile_dropWhile_nil _ _

theorem nsp_urlRemove (l : List Char) : nsp (urlRemove l) <+: nsp l := by
  induction l using urlRemove.induct with
  | case1 => simp [urlRemove]
  | case2 c rest h ih =>
    rw [urlRemove, dif_pos h]
    have h0 := nsp_consumeUrl h
    rw [h0] at ih
    rw [List.prefix_nil.mp ih]
    exact List.nil_prefix
  | case3 c rest h ih =>
    rw [urlRemove, dif_neg h]
    by_cases hc : isPySpace c = true
    · rw [show nsp (c :: urlRemove rest) = [] by
        simp [nsp, List.takeWhile_cons, hc]]
      exact List.nil_prefix
    · rw [show nsp (c :: urlRemove rest) = c :: nsp (urlRemove rest) by
          simp [nsp, List.takeWhile_cons, hc],
        show nsp (c :: rest) = c :: nsp rest by
          simp [nsp, List.takeWhile_cons, hc]]
      exact List.cons_prefix_cons.mpr ⟨rfl, ih⟩

/-- Monotonicity driver for the no-URL invariant: a URL match just after an
emitted character transfers along `nsp`-prefix containment, because the
matched text is wholly non-whitespace. -/
theorem matchUrl_mono_nsp {c : Char} {T₁ T₂ : List Char}
    (hm : matchUrlAt (c :: T₁) = true) (hp : nsp T₁ <+: nsp T₂) :
    matchUrlAt (c :: T₂) = true := by
  rcases matchUrlAt_iff.mp hm with ⟨pre, d, hpre, hd, hpf⟩
  have hpre_ne : pre ≠ [] := by rcases hpre with rfl | rfl <;> simp
  rcases hpre with rfl | rfl
  · rw [show (['h', 't', 't', 'p', ':', '/', '/'] ++ [d] : List Char) =
      'h' :: (['t', 't', 'p', ':', '/', '/'] ++ [d]) from rfl] at hpf
    rw [List.cons_prefix_cons] at hpf
    obtain ⟨rfl, hq⟩ := hpf
    have hall : ∀ x ∈ (['t', 't', 'p', ':', '/', '/'] ++ [d] : List Char),
        (fun c => !isPySpace c) x = true := by
      intro x hx
      simp only [List.mem_append, List.mem_singleton] at hx
      rcases hx with hx | rfl
      · fin_cases hx <;> simp [isPySpace]
      · simp [hd]
    have h1 : (['t', 't', 'p', ':', '/', '/'] ++ [d] : List Char) <+: T₂ :=
      ((prefix_takeWhile hq hall).trans hp).trans (List.takeWhile_prefix _)
    refine matchUrlAt_iff.mpr ⟨_, d, Or.inl rfl, hd, ?_⟩
    rw [show (['h', 't', 't', 'p', ':', '/', '/'] ++ [d] : List Char) =
      'h' :: (['t', 't', 'p', ':', '/', '/'] ++ [d]) from rfl]
    exact List.cons_prefix_cons.mpr ⟨rfl, h1⟩
  · rw [show (['h', 't', 't', 'p', 's', ':', '/', '/'] ++ [d] : List Char) =
      'h' :: (['t', 't', 'p', 's', ':', '/', '/'] ++ [d]) from rfl] at hpf
    rw [List.cons_prefix_cons] at hpf
    obtain ⟨rfl, hq⟩ := hpf
    have hall : ∀ x ∈ (['t', 't', 'p', 's', ':', '/', '/'] ++ [d] : List Char),
        (fun c => !isPySpace c) x = true := by
      intro x hx
      simp only [List.mem_append, List.mem_singleton] at hx
      rcases hx with hx | rfl
      · fin_cases hx <;> simp [isPySpace]
      · simp [hd]
    have h1 : (['t', 't', 'p', 's', ':', '/', '/'] ++ [d] : List Char) <+: T₂ :=
      ((prefix_takeWhile hq hall).trans hp).trans (List.takeWhile_prefix _)
    refine matchUrlAt_iff.mpr ⟨_, d, Or.inr rfl, hd, ?_⟩
    rw [show (['h', 't', 't', 'p', 's', ':', '/', '/'] ++ [d] : List Char) =
      'h' :: (['t', 't', 'p', 's', ':', '/', '/'] ++ [d]) from rfl]
    exact List.cons_prefix_cons.mpr ⟨rfl, h1⟩

/-- After `re.sub(_URL_PATTERN, "", ·)` no match of the URL pattern remains. -/
theorem urlRemove_noUrl (l : List Char) : noUrl (urlRemove l) := by
  induction l using urlRemove.induct with
  | case1 => intro i; simp [urlRemove]; decide
  | case2 c rest h ih =>
    rw [urlRemove, dif_pos h]
    exact ih
  | case3 c rest h ih =>
    rw [urlRemove, dif_neg h]
    intro i
    cases i with
    | zero =>
      simp only [List.drop_zero]
      by_contra hit
      rw [Bool.not_eq_false] at hit
      exact h (matchUrl_mono_nsp hit (nsp_urlRemove rest))
    | succ j => simpa using ih j

/-- Does `<[^>]+>` match at the head of `l`: a `<`, at least one non-`>`
character, then a `>`. -/
def tagMatchAt (l : List Char) : Bool :=
  match l with
  | [] => false
  | c :: rest =>
    c == '<' && !(rest.takeWhile (fun x => x != '>')).isEmpty &&
      !(rest.dropWhile (fun x => x != '>')).isEmpty

/-- Rest of the input after the leftmost-greedy match of `<[^>]+>` at the
head: skip the `<`, the greedy `[^>]+` run, and the closing `>`. -/
def consumeTag (l : List Char) : List Char :=
  match l with
  | [] => []
  | _ :: rest => (rest.dropWhile (fun x => x != '>')).drop 1

theorem consumeTag_length_lt (c : Char) (rest : List Char) :
    (consumeTag (c :: rest)).length < (c :: rest).length := by
  simp only [consumeTag]
  have h := (List.dropWhile_sublist (l := rest)
    (p := fun x => x != '>')).length_le
  simp only [List.length_drop, List.length_cons]
  omega

/-- `re.sub(_HTML_TAG_PATTERN, " ", value)`: scan left to right, replace
each leftmost match of `<[^>]+>` with a single space. -/
def tagReplace (l : List Char) : List Char :=
  match l with
  | [] => []
  | c :: rest =>
    if tagMatchAt (c :: rest) = true then
      ' ' :: tagReplace (consumeTag (c :: rest))
    else c :: tagReplace rest
termination_by l.length
decreasing_by
  · apply consumeTag_length_lt
  · simp

/-- No position of `l` starts a match of `<[^>]+>`. -/
def noTag (l : List Char) : Prop := ∀ i, tagMatchAt (l.drop i) = false

/-- `tagMatchAt` characterised by the matched text standing at the head. -/
theorem tagMatchAt_iff {l : List Char} :
    tagMatchAt l = true ↔
      ∃ mid, mid ≠ [] ∧ (∀ x ∈ mid, x ≠ '>') ∧
        ('<' :: (mid ++ ['>'])) <+: l := by
  constructor
  · intro h
    cases l with
    | nil => simp [tagMatchAt] at h
    | cons c rest =>
      simp only [tagMatchAt, Bool.and_eq_true, beq_iff_eq,
        Bool.not_eq_true', List.isEmpty_eq_false] at h
      obtain ⟨⟨rfl, hrun⟩, hdrop⟩ := h
      refine ⟨rest.takeWhile (fun x => x != '>'), hrun, ?_, ?_⟩
      · intro x hx
        have := List.mem_takeWhile_imp hx
        simpa using this
      · cases hd : rest.dropWhile (fun x => x != '>') with
        | nil => exact absurd hd hdrop
        | cons d t =>
          have hdc : d = '>' := by
            have h := List.head_dropWhile_not (fun x => x != '>') rest
              (by simp [hd])
            simp only [hd, List.head_cons] at h
            simpa using h
          subst hdc
          refine List.cons_prefix_cons.mpr ⟨rfl, ⟨t, ?_⟩⟩
          rw [List.append_assoc, List.singleton_append, ← hd,
            List.takeWhile_append_dropWhile]
  · rintro ⟨mid, hne, hmem, hpf⟩
    cases l with
    | nil => exact absurd (List.prefix_nil.mp hpf) (by simp)
    | cons c rest =>
      rw [List.cons_prefix_cons] at hpf
      obtain ⟨rfl, t, hrest⟩ := hpf
      have hmid : ∀ x ∈ mid, (fun x => x != '>') x = true := by
        intro x hx; simpa using hmem x hx
      have htake : rest.takeWhile (fun x => x != '>') = mid := by
        rw [← hrest, List.append_assoc, List.singleton_append,
          List.takeWhile_append_of_pos hmid]
        rw [List.takeWhile_cons, if_neg (by simp)]
        simp
      have hdrop : rest.dropWhile (fun x => x != '>') = '>' :: t := by
        rw [← hrest, List.append_assoc, List.singleton_append,
          List.dropWhile_append_of_pos hmid]
        rw [List.dropWhile_cons, if_neg (by simp)]
      simp only [tagMatchAt, Bool.and_eq_true, beq_iff_eq, Bool.not_eq_true',
        List.isEmpty_eq_false]
      exact ⟨⟨trivial, by simp [htake, hne]⟩, by simp [hdrop]⟩

theorem consumeTag_suffix (l : List Char) : consumeTag l <:+ l := by
  cases l with
  | nil => exact List.suffix_refl _
  | cons c rest =>
    show (rest.dropWhile (fun x => x != '>')).drop 1 <:+ c :: rest
    exact ((List.drop_suffix _ _).trans (List.dropWhile_suffix _)).trans
      (List.suffix_cons c rest)

theorem mem_tagReplace {x : Char} :
    ∀ {l : List Char}, x ∈ tagReplace l → x ∈ l ∨ x = ' ' := by
  intro l
  induction l using tagReplace.induct with
  | case1 => intro h; simp [tagReplace] at h
  | case2 c rest h ih =>
    rw [tagReplace, if_pos h]
    intro hx
    rcases List.mem_cons.mp hx with rfl | hx
    · exact Or.inr rfl
    · rcases ih hx with hx | hx
      · exact Or.inl ((consumeTag_suffix (c :: rest)).sublist.mem hx)
      · exact Or.inr hx
  | case3 c rest h ih =>
    rw [tagReplace, if_neg h]
    intro hx
    rcases List.mem_cons.mp hx with rfl | hx
    · exact Or.inl (List.mem_cons_self x rest)
    · rcases ih hx with hx | hx
      · exact Or.inl (List.mem_cons_of_mem c hx)
      · exact Or.inr hx

theorem tagMatchAt_false_cases {rest : List Char}
    (h : tagMatchAt ('<' :: rest) = false) :
    rest = [] ∨ (∃ r2, rest = '>' :: r2) ∨ ('>' ∉ rest) := by
  by_cases htake : rest.takeWhile (fun x => x != '>') = []
  · cases rest with
    | nil => exact Or.inl rfl
    | cons d t =>
      rw [List.takeWhile_cons] at htake
      by_cases hd : (d != '>') = true
      · rw [if_pos hd] at htake
        simp at htake
      · have hd' : d = '>' := by simpa using hd
        exact Or.inr (Or.inl ⟨t, by rw [hd']⟩)
  · by_cases hdrop : rest.dropWhile (fun x => x != '>') = []
    · rw [List.dropWhile_eq_nil_iff] at hdrop
      refine Or.inr (Or.inr fun hmem => ?_)
      have := hdrop _ hmem
      simp at this
    · exfalso
      have h1 : (rest.takeWhile (fun x => x != '>')).isEmpty = false :=
        List.isEmpty_eq_false.mpr htake
      have h2 : (rest.dropWhile (fun x => x != '>')).isEmpty = false :=
        List.isEmpty_eq_false.mpr hdrop
      rw [show tagMatchAt ('<' :: rest) = true by simp [tagMatchAt, h1, h2]]
        at h
      simp at h

theorem noGt_tagMatchAt_false {c : Char} {T : List Char} (h : '>' ∉ T) :
    tagMatchAt (c :: T) = false := by
  have hd : T.dropWhile (fun x => x != '>') = [] := by
    rw [List.dropWhile_eq_nil_iff]
    intro x hx
    simp only [bne_iff_ne, ne_eq]
    intro hgt
    exact h (hgt ▸ hx)
  simp [tagMatchAt, hd]

theorem tagReplace_gt (r2 : List Char) :
    tagReplace ('>' :: r2) = '>' :: tagReplace r2 := by
  rw [tagReplace, if_neg (by simp [tagMatchAt])]

theorem tagMatchAt_false_emit {c : Char} {rest T : List Char}
    (h : tagMatchAt (c :: rest) = false)
    (hnil : rest = [] → T = [])
    (hgt : ∀ r2, rest = '>' :: r2 → ∃ t2, T = '>' :: t2)
    (hmem : '>' ∉ rest → '>' ∉ T) :
    tagMatchAt (c :: T) = false := by
  by_cases hc : c = '<'
  · subst hc
    rcases tagMatchAt_false_cases h with rfl | ⟨r2, rfl⟩ | hno
    · rw [hnil rfl]; decide
    · obtain ⟨t2, rfl⟩ := hgt r2 rfl
      simp [tagMatchAt]
    · exact noGt_tagMatchAt_false (hmem hno)
  · simp [tagMatchAt, hc]

/-- After `re.sub(_HTML_TAG_PATTERN, " ", ·)` no match of the tag pattern
remains. -/
theorem tagReplace_noTag (l : List Char) : noTag (tagReplace l) := by
  induction l using tagReplace.induct with
  | case1 => intro i; simp [tagReplace]; decide
  | case2 c rest h ih =>
    rw [tagReplace, if_pos h]
    intro i
    cases i with
    | zero => simp [tagMatchAt]
    | succ j => simpa using ih j
  | case3 c rest h ih =>
    rw [tagReplace, if_neg h]
    intro i
    cases i with
    | zero =>
      simp only [List.drop_zero]
      refine tagMatchAt_false_emit (Bool.not_eq_true _ ▸ h) ?_ ?_ ?_
      · rintro rfl; simp [tagReplace]
      · rintro r2 rfl; exact ⟨tagReplace r2, tagReplace_gt r2⟩
      · intro hno hmemT
        rcases mem_tagReplace hmemT with hx | hx
        · exact hno hx
        · simp at hx
    | succ j => simpa using ih j

theorem nsp_cons_space {c : Char} (t : List Char) (hc : isPySpace c = true) :
    nsp (c :: t) = [] := by
  simp [nsp, List.takeWhile_cons, hc]

theorem nsp_cons_nonspace {c : Char} (t : List Char) (hc : isPySpace c = false) :
    nsp (c :: t) = c :: nsp t := by
  simp [nsp, List.takeWhile_cons, hc]

theorem nsp_tagReplace (l : List Char) : nsp (tagReplace l) <+: nsp l := by
  induction l using tagReplace.induct with
  | case1 => simp [tagReplace]
  | case2 c rest h ih =>
    rw [tagReplace, if_pos h, nsp_cons_space _ (by decide)]
    exact List.nil_prefix
  | case3 c rest h ih =>
    rw [tagReplace, if_neg h]
    by_cases hc : isPySpace c = true
    · rw [nsp_cons_space _ hc]
      exact List.nil_prefix
    · rw [nsp_cons_nonspace _ (by simpa using hc),
        nsp_cons_nonspace _ (by simpa using hc)]
      exact List.cons_prefix_cons.mpr ⟨rfl, ih⟩

theorem drop_append_cancel {α : Type} (u l : List α) (i : Nat) :
    (u ++ l).drop (u.length + i) = l.drop i := by
  rw [List.drop_append_eq_append_drop, List.drop_eq_nil_of_le (by omega)]
  simp

theorem noUrl_suffix {l l' : List Char} (h : noUrl l) (hs : l' <:+ l) :
    noUrl l' := by
  obtain ⟨u, rfl⟩ := hs
  intro i
  have := h (u.length + i)
  rwa [drop_append_cancel] at this

theorem noTag_suffix {l l' : List Char} (h : noTag l) (hs : l' <:+ l) :
    noTag l' := by
  obtain ⟨u, rfl⟩ := hs
  intro i
  have := h (u.length + i)
  rwa [drop_append_cancel] at this

theorem matchUrlAt_head {c : Char} {T : List Char}
    (h : matchUrlAt (c :: T) = true) : c = 'h' := by
  rcases matchUrlAt_iff.mp h with ⟨pre, d, hpre, -, hpf⟩
  rcases hpre with rfl | rfl <;>
    · rw [show ∀ x : List Char, ('h' :: x : List Char) ++ [d] =
        'h' :: (x ++ [d]) from fun _ => rfl] at hpf
      exact (List.cons_prefix_cons.mp hpf).1.symm

theorem noUrl_tagReplace {l : List Char} (h : noUrl l) :
    noUrl (tagReplace l) := by
  induction l using tagReplace.induct with
  | case1 => intro i; simp [tagReplace]; decide
  | case2 c rest hm ih =>
    rw [tagReplace, if_pos hm]
    have hcons : noUrl (consumeTag (c :: rest)) :=
      noUrl_suffix h (consumeTag_suffix _)
    intro i
    cases i with
    | zero =>
      simp only [List.drop_zero]
      by_contra hit
      rw [Bool.not_eq_false] at hit
      have := matchUrlAt_head hit
      simp at this
    | succ j => simpa using ih hcons j
  | case3 c rest hm ih =>
    rw [tagReplace, if_neg hm]
    have hrest : noUrl rest := noUrl_suffix h (List.suffix_cons c rest)
    intro i
    cases i with
    | zero =>
      simp only [List.drop_zero]
      by_contra hit
      rw [Bool.not_eq_false] at hit
      have := matchUrl_mono_nsp hit (nsp_tagReplace rest)
      have h0 := h 0
      simp only [List.drop_zero] at h0
      rw [h0] at this
      exact Bool.false_ne_true this
    | succ j => simpa using ih hrest j

/-- `re.sub(_WHITESPACE_PATTERN, " ", value)`: scan left to right, replace
each leftmost maximal whitespace run with a single space. -/
def collapse (l : List Char) : List Char :=
  match l with
  | [] => []
  | c :: rest =>
    if isPySpace c = true then ' ' :: collapse (rest.dropWhile isPySpace)
    else c :: collapse rest
termination_by l.length
decreasing_by
  · exact Nat.lt_succ_of_le (List.dropWhile_sublist _).length_le
  · simp

theorem mem_collapse {x : Char} :
    ∀ {l : List Char}, x ∈ collapse l → x ∈ l ∨ x = ' ' := by
  intro l
  induction l using collapse.induct with
  | case1 => intro h; simp [collapse] at h
  | case2 c rest h ih =>
    rw [collapse, if_pos h]
    intro hx
    rcases List.mem_cons.mp hx with rfl | hx
    · exact Or.inr rfl
    · rcases ih hx with hx | hx
      · exact Or.inl (List.mem_cons_of_mem c ((List.dropWhile_sublist _).mem hx))
      · exact Or.inr hx
  | case3 c rest h ih =>
    rw [collapse, if_neg h]
    intro hx
    rcases List.mem_cons.mp hx with rfl | hx
    · exact Or.inl (List.mem_cons_self x rest)
    · rcases ih hx with hx | hx
      · exact Or.inl (List.mem_cons_of_mem c hx)
      · exact Or.inr hx

theorem collapse_space_only {x : Char} :
    ∀ {l : List Char}, x ∈ collapse l → isPySpace x = true → x = ' ' := by
  intro l
  induction l using collapse.induct with
  | case1 => intro h _; simp [collapse] at h
  | case2 c rest h ih =>
    rw [collapse, if_pos h]
    intro hx hsp
    rcases List.mem_cons.mp hx with rfl | hx
    · rfl
    · exact ih hx hsp
  | case3 c rest h ih =>
    rw [collapse, if_neg h]
    intro hx hsp
    rcases List.mem_cons.mp hx with rfl | hx
    · exact absurd hsp h
    · exact ih hx hsp

theorem nsp_collapse (l : List Char) : nsp (collapse l) <+: nsp l := by
  induction l using collapse.induct with
  | case1 => simp [collapse]
  | case2 c rest h ih =>
    rw [collapse, if_pos h, nsp_cons_space _ (by decide)]
    exact List.nil_prefix
  | case3 c rest h ih =>
    rw [collapse, if_neg h]
    rw [nsp_cons_nonspace _ (by simpa using h),
      nsp_cons_nonspace _ (by simpa using h)]
    exact List.cons_prefix_cons.mpr ⟨rfl, ih⟩

theorem head_collapse_space {t : List Char} {d : Char}
    (hd : (collapse t).head? = some d) (hsp : isPySpace d = true) :
    ∃ c t', t = c :: t' ∧ isPySpace c = true := by
  cases t with
  | nil =>
    rw [show collapse [] = [] by simp [collapse]] at hd
    simp at hd
  | cons c rest =>
    by_cases hc : isPySpace c = true
    · exact ⟨c, rest, rfl, hc⟩
    · rw [collapse, if_neg hc] at hd
      simp only [List.head?_cons, Option.some.injEq] at hd
      exact absurd (hd ▸ hsp) hc

/-- The relation "not two adjacent whitespace characters". -/
def noAdjSpace (a b : Char) : Prop := ¬(isPySpace a = true ∧ isPySpace b = true)

theorem chain'_collapse (l : List Char) :
    List.Chain' noAdjSpace (collapse l) := by
  induction l using collapse.induct with
  | case1 => simp [collapse]
  | case2 c rest h ih =>
    rw [collapse, if_pos h]
    rw [List.chain'_cons']
    refine ⟨?_, ih⟩
    intro b hb
    rintro ⟨-, hbsp⟩
    obtain ⟨e, t', het, hesp⟩ := head_collapse_space hb hbsp
    have hh := List.head_dropWhile_not isPySpace rest (by simp [het])
    simp only [het, List.head_cons] at hh
    exact absurd hesp (by simpa using hh)
  | case3 c rest h ih =>
    rw [collapse, if_neg h]
    rw [List.chain'_cons']
    refine ⟨?_, ih⟩
    intro b hb
    rintro ⟨hcsp, -⟩
    exact absurd hcsp h

theorem noUrl_collapse {l : List Char} (h : noUrl l) : noUrl (collapse l) := by
  induction l using collapse.induct with
  | case1 => intro i; simp [collapse]; decide
  | case2 c rest hc ih =>
    rw [collapse, if_pos hc]
    have hsub : noUrl (rest.dropWhile isPySpace) :=
      noUrl_suffix h ((List.dropWhile_suffix _).trans (List.suffix_cons c rest))
    intro i
    cases i with
    | zero =>
      simp only [List.drop_zero]
      by_contra hit
      rw [Bool.not_eq_false] at hit
      have := matchUrlAt_head hit
      simp at this
    | succ j => simpa using ih hsub j
  | case3 c rest hc ih =>
    rw [collapse, if_neg hc]
    have hrest : noUrl rest := noUrl_suffix h (List.suffix_cons c rest)
    intro i
    cases i with
    | zero =>
      simp only [List.drop_zero]
      by_contra hit
      rw [Bool.not_eq_false] at hit
      have := matchUrl_mono_nsp hit (nsp_collapse rest)
      have h0 := h 0
      simp only [List.drop_zero] at h0
      rw [h0] at this
      exact Bool.false_ne_true this
    | succ j => simpa using ih hrest j

theorem collapse_gt (r2 : List Char) :
    collapse ('>' :: r2) = '>' :: collapse r2 := by
  rw [collapse, if_neg (by decide)]

theorem noTag_collapse {l : List Char} (h : noTag l) : noTag (collapse l) := by
  induction l using collapse.induct with
  | case1 => intro i; simp [collapse]; decide
  | case2 c rest hc ih =>
    rw [collapse, if_pos hc]
    have hsub : noTag (rest.dropWhile isPySpace) :=
      noTag_suffix h ((List.dropWhile_suffix _).trans (List.suffix_cons c rest))
    intro i
    cases i with
    | zero => simp [tagMatchAt]
    | succ j => simpa using ih hsub j
  | case3 c rest hc ih =>
    rw [collapse, if_neg hc]
    have hrest : noTag rest := noTag_suffix h (List.suffix_cons c rest)
    intro i
    cases i with
    | zero =>
      simp only [List.drop_zero]
      have h0 := h 0
      simp only [List.drop_zero] at h0
      refine tagMatchAt_false_emit h0 ?_ ?_ ?_
      · rintro rfl; simp [collapse]
      · rintro r2 rfl; exact ⟨collapse r2, collapse_gt r2⟩
      · intro hno hmemT
        rcases mem_collapse hmemT with hx | hx
        · exact hno hx
        · simp at hx
    | succ j => simpa using ih hrest j

theorem matchUrl_prefix_mono {l₁ l₂ : List Char} (hp : l₁ <+: l₂)
    (h : matchUrlAt l₁ = true) : matchUrlAt l₂ = true := by
  rcases matchUrlAt_iff.mp h with ⟨pre, d, hpre, hd, hpf⟩
  exact matchUrlAt_iff.mpr ⟨pre, d, hpre, hd, hpf.trans hp⟩

theorem tagMatch_prefix_mono {l₁ l₂ : List Char} (hp : l₁ <+: l₂)
    (h : tagMatchAt l₁ = true) : tagMatchAt l₂ = true := by
  rcases tagMatchAt_iff.mp h with ⟨mid, hne, hmem, hpf⟩
  exact tagMatchAt_iff.mpr ⟨mid, hne, hmem, hpf.trans hp⟩

theorem noUrl_prefix {l l' : List Char} (h : noUrl l) (hp : l' <+: l) :
    noUrl l' := by
  intro i
  by_contra hit
  rw [Bool.not_eq_false] at hit
  have := matchUrl_prefix_mono (hp.drop i) hit
  rw [h i] at this
  exact Bool.false_ne_true this

theorem noTag_prefix {l l' : List Char} (h : noTag l) (hp : l' <+: l) :
    noTag l' := by
  intro i
  by_contra hit
  rw [Bool.not_eq_false] at hit
  have := tagMatch_prefix_mono (hp.drop i) hit
  rw [h i] at this
  exact Bool.false_ne_true this

/-- Python `str.strip()`: remove leading and trailing whitespace. -/
def pyStrip (l : List Char) : List Char :=
  ((l.dropWhile isPySpace).reverse.dropWhile isPySpace).reverse

theorem pyStrip_prefix_dropWhile (l : List Char) :
    pyStrip l <+: l.dropWhile isPySpace := by
  unfold pyStrip
  rw [← List.reverse_suffix]
  simp only [List.reverse_reverse]
  exact List.dropWhile_suffix _

theorem pyStrip_sublist (l : List Char) : List.Sublist (pyStrip l) l :=
  ((pyStrip_prefix_dropWhile l).sublist).trans (List.dropWhile_sublist _)

/-! ### `_sanitize_text` and its guarantees -/

/-- `PolicyEngine._sanitize_text` on character lists: remove URLs, replace
HTML tags by a space, collapse whitespace runs to one space, strip, then
truncate to `max_chars` characters. -/
def sanitizeTextL (value : List Char) (maxChars : Nat) : List Char :=
  let noLinks := urlRemove value
  let noHtml := tagReplace noLinks
  let compact := pyStrip (collapse noHtml)
  compact.take maxChars

/-- `PolicyEngine._sanitize_text` (`core/policy.py`). -/
def sanitize_text (value : String) (maxChars : Nat) : String :=
  (sanitizeTextL value.toList maxChars).asString

/-- All guarantees of the sanitised text, on the character-list level. -/
theorem sanitizeTextL_props (value : List Char) (maxChars : Nat) :
    noUrl (sanitizeTextL value maxChars) ∧
      noTag (sanitizeTextL value maxChars) ∧
      List.Chain' noAdjSpace (sanitizeTextL value maxChars) ∧
      (∀ c ∈ sanitizeTextL value maxChars, isPySpace c = true → c = ' ') ∧
      (sanitizeTextL value maxChars).length ≤ maxChars := by
  unfold sanitizeTextL
  set s1 := urlRemove value with hs1
  set s2 := tagReplace s1 with hs2
  set s3 := collapse s2 with hs3
  set s4 := pyStrip s3 with hs4
  have hu3 : noUrl s3 := noUrl_collapse (noUrl_tagReplace (urlRemove_noUrl value))
  have ht3 : noTag s3 := noTag_collapse (tagReplace_noTag s1)
  have hc3 : List.Chain' noAdjSpace s3 := chain'_collapse s2
  have hu4 : noUrl s4 :=
    noUrl_prefix (noUrl_suffix hu3 (List.dropWhile_suffix _))
      (pyStrip_prefix_dropWhile s3)
  have ht4 : noTag s4 :=
    noTag_prefix (noTag_suffix ht3 (List.dropWhile_suffix _))
      (pyStrip_prefix_dropWhile s3)
  have hc4 : List.Chain' noAdjSpace s4 :=
    List.Chain'.prefix (hc3.suffix (List.dropWhile_suffix _))
      (pyStrip_prefix_dropWhile s3)
  refine ⟨?_, ?_, ?_, ?_, ?_⟩
  · exact noUrl_prefix hu4 (List.take_prefix _ _)
  · exact noTag_prefix ht4 (List.take_prefix _ _)
  · exact hc4.prefix (List.take_prefix _ _)
  · intro c hc hsp
    have hmem3 : c ∈ s3 :=
      (pyStrip_sublist s3).mem ((List.take_prefix _ _).sublist.mem hc)
    exact collapse_space_only hmem3 hsp
  · simpa using List.length_take_le maxChars s4

/-- One key of `PolicyEngine.sanitize_body_payload`: if the value under
`key` is a string, replace it by its sanitised form. -/
def sanitizeField (payload : List (String × PyVal)) (key : String)
    (maxChars : Nat) : List (String × PyVal) :=
  match alookup payload key with
  | some (PyVal.str b) => aset payload key (PyVal.str (sanitize_text b maxChars))
  | _ => payload

/-- `PolicyEngine.sanitize_body_payload` (`core/policy.py`): copy the
payload, then sanitise the `body` and `snippet` values when string-valued. -/
def sanitize_body_payload (payload : List (String × PyVal)) (maxChars : Nat) :
    List (String × PyVal) :=
  sanitizeField (sanitizeField payload "body" maxChars) "snippet" maxChars

theorem alookup_sanitizeField_same {payload : List (String × PyVal)}
    {key : String} {maxChars : Nat} {s : String}
    (hs : alookup (sanitizeField payload key maxChars) key =
      some (PyVal.str s)) :
    ∃ b, alookup payload key = some (PyVal.str b) ∧
      s = sanitize_text b maxChars := by
  unfold sanitizeField at hs
  split at hs
  · rename_i b heq
    rw [alookup_aset_self] at hs
    injection hs with hs
    injection hs with hs
    exact ⟨b, heq, hs.symm⟩
  · rename_i hne
    exact absurd hs (hne s)

theorem alookup_sanitizeField_ne (payload : List (String × PyVal))
    (key key' : String) (maxChars : Nat) (h : key ≠ key') :
    alookup (sanitizeField payload key maxChars) key' = alookup payload key' := by
  unfold sanitizeField
  split
  · exact alookup_aset_ne _ _ _ _ h
  · rfl

/-- C5: For every string value under the keys `body` and `snippet` of a
body-view payload and every `max_chars ≥ 1`, sanitisation applies, in
order: remove `https?://\S+` substrings, replace `<[^>]+>` substrings by a
single space, collapse every whitespace run to one space, trim, then
truncate to `max_chars` characters; consequently the returned string
contains no substring matching `https?://\S+`, no substring matching
`<[^>]+>`, no run of whitespace longer than one space, and has length
`≤ max_chars`. -/
theorem sanitize_body_payload_guarantees (payload : List (String × PyVal))
    (maxChars : Nat) (hmax : 1 ≤ maxChars) (k : String)
    (hk : k = "body" ∨ k = "snippet") (s : String)
    (hs : alookup (sanitize_body_payload payload maxChars) k =
      some (PyVal.str s)) :
    noUrl s.toList ∧ noTag s.toList ∧ List.Chain' noAdjSpace s.toList ∧
      (∀ c ∈ s.toList, isPySpace c = true → c = ' ') ∧
      s.length ≤ maxChars := by
  have main : ∃ b, s = sanitize_text b maxChars := by
    unfold sanitize_body_payload at hs
    rcases hk with rfl | rfl
    · rw [alookup_sanitizeField_ne _ _ _ _ (by decide)] at hs
      obtain ⟨b, -, rfl⟩ := alookup_sanitizeField_same hs
      exact ⟨b, rfl⟩
    · obtain ⟨b, -, rfl⟩ := alookup_sanitizeField_same hs
      exact ⟨b, rfl⟩
  obtain ⟨b, rfl⟩ := main
  have h := sanitizeTextL_props b.toList maxChars
  unfold sanitize_text
  rw [List.toList_asString]
  refine ⟨h.1, h.2.1, h.2.2.1, h.2.2.2.1, ?_⟩
  rw [List.length_asString]
  exact h.2.2.2.2

/-- Witness for C5 at a concrete payload. -/
theorem sanitize_body_payload_guarantees_witness :
    (1 : Nat) ≤ 1 ∧ ("body" = "body" ∨ "body" = "snippet") ∧
      alookup (sanitize_body_payload [("body", PyVal.str "x")] 1) "body" =
        some (PyVal.str (sanitize_text "x" 1)) ∧
      (noUrl (sanitize_text "x" 1).toList ∧
        noTag (sanitize_text "x" 1).toList ∧
        List.Chain' noAdjSpace (sanitize_text "x" 1).toList ∧
        (∀ c ∈ (sanitize_text "x" 1).toList, isPySpace c = true → c = ' ') ∧
        (sanitize_text "x" 1).length ≤ 1) := by
  have hlook : alookup (sanitize_body_payload [("body", PyVal.str "x")] 1)
      "body" = some (PyVal.str (sanitize_text "x" 1)) := by
    show alookup (sanitizeField (sanitizeField [("body", PyVal.str "x")]
      "body" 1) "snippet" 1) "body" = _
    rw [show sanitizeField [("body", PyVal.str "x")] "body" 1 =
      [("body", PyVal.str (sanitize_text "x" 1))] from rfl]
    rw [show sanitizeField [("body", PyVal.str (sanitize_text "x" 1))]
        "snippet" 1 = [("body", PyVal.str (sanitize_text "x" 1))] by
      unfold sanitizeField
      rw [show alookup [("body", PyVal.str (sanitize_text "x" 1))] "snippet" =
        Option.none from rfl]]
    rfl
  exact ⟨le_rfl, Or.inl rfl, hlook,
    sanitize_body_payload_guarantees _ 1 le_rfl "body" (Or.inl rfl) _ hlook⟩

/-! ## Policy engine: approval decisions (`PolicyEngine.requires_approval`) -/

/-- `RiskTier` (`core/models.py`). -/
inductive RiskTier where
  | read_only
  | routine
  | transactional
  | dangerous
deriving DecidableEq

/-- `ActionPhase` (`core/models.py`): the only phases the API routes pass. -/
inductive Phase where
  | propose
  | execute
deriving DecidableEq

/-- `PluginActionManifest` (`core/manifests.py`). -/
structure PluginActionManifest where
  name : String
  capability_id : String
  resource_type : String
  risk_tier : RiskTier
  route_pattern : String
  supports_propose : Bool
  requires_idempotency : Bool
  emits_attributes : List String
  resource : Option String
  mutating : Bool

/-- `_DEFAULT_APPROVAL_BY_RISK` (`core/policy.py`). -/
def defaultApprovalByRisk : RiskTier → Bool
  | .read_only => false
  | .routine => false
  | .transactional => true
  | .dangerous => true

/-- `PolicyEngine._load_approval_defaults`: the hard-coded table overridden
per-tier by the configured values (for well-formed configuration). -/
def load_approval_defaults (overrides : RiskTier → Option Bool) :
    RiskTier → Bool :=
  fun t => (overrides t).getD (defaultApprovalByRisk t)

/-- The loaded state of a `PolicyEngine`: blocked domains and the approval
override patterns, as produced by `__init__`. -/
structure PolicyEngineState where
  blocked_domains : List String
  approval_defaults : RiskTier → Bool
  global_allow : List String
  global_require : List String
  plugin_allow : List (String × List String)
  plugin_require : List (String × List String)

/-- `PolicyEngine._plugin_id_for`: text before the first `.`, or the whole
id when it has no dot. -/
def plugin_id_for (capability_id : String) : String :=
  if '.' ∈ capability_id.toList then
    (capability_id.toList.takeWhile (fun c => c != '.')).asString
  else capability_id

/-- `PolicyEngine._matches_pattern`: trailing-`*` prefix match, otherwise
exact equality. -/
def matches_pattern (capability_id pattern : String) : Bool :=
  if pattern.toList.getLast? = some '*' then
    pattern.toList.dropLast.isPrefixOf capability_id.toList
  else capability_id == pattern

/-- `PolicyEngine._matches_any`. -/
def matches_any (capability_id : String) (patterns : List String) : Bool :=
  patterns.any (fun p => matches_pattern capability_id p)

/-- `PolicyEngine.requires_approval` (`core/policy.py`). -/
def requires_approval (st : PolicyEngineState)
    (action : PluginActionManifest) (phase : Phase) : Bool :=
  if phase ≠ Phase.execute then false
  else
    let capability_id := action.capability_id
    let plugin_id := plugin_id_for capability_id
    let plugin_require := (alookup st.plugin_require plugin_id).getD []
    let plugin_allow := (alookup st.plugin_allow plugin_id).getD []
    if matches_any capability_id plugin_require then true
    else if matches_any capability_id plugin_allow then false
    else if matches_any capability_id st.global_require then true
    else if matches_any capability_id st.global_allow then false
    else st.approval_defaults action.risk_tier

/-! Specification-side definitions for C3, written from the claim's words. -/

/-- Claim C3's pattern relation: a pattern matches a capability id iff it
equals it exactly or ends in `*` and its prefix before the `*` is a prefix
of the capability id. -/
def specPatternMatches (pattern capability_id : String) : Prop :=
  pattern = capability_id ∨
    ∃ p : List Char, pattern.toList = p ++ ['*'] ∧ p <+: capability_id.toList

instance (pattern capability_id : String) :
    Decidable (specPatternMatches pattern capability_id) := by
  unfold specPatternMatches
  refine @instDecidableOr _ _ _ ?_
  refine decidable_of_iff
    (pattern.toList.getLast? = some '*' ∧
      pattern.toList.dropLast <+: capability_id.toList) ?_
  constructor
  · rintro ⟨hlast, hpre⟩
    obtain ⟨p, hp⟩ := List.getLast?_eq_some_iff.mp hlast
    rw [hp, List.dropLast_concat] at hpre
    exact ⟨p, hp, hpre⟩
  · rintro ⟨p, hp, hpre⟩
    rw [hp]
    refine ⟨by simp, ?_⟩
    rw [List.dropLast_concat]
    exact hpre

/-- Claim C3's plugin scope: the capability id split at the first `.`. -/
def specPluginScope (capability_id : String) : String :=
  (capability_id.toList.takeWhile (fun c => c != '.')).asString

/-- Claim C3's risk-tier default table with per-tier configuration
overrides. -/
def specTierDefault (overrides : RiskTier → Option Bool) (t : RiskTier) :
    Bool :=
  (overrides t).getD
    (match t with
     | .read_only => false
     | .routine => false
     | .transactional => true
     | .dangerous => true)

/-- Claim C3's decision chain: first applicable rule in the exact order
plugin-require, plugin-allow, global-require, global-allow, tier default. -/
def requiresApprovalSpec (overrides : RiskTier → Option Bool)
    (st : PolicyEngineState) (action : PluginActionManifest)
    (phase : Phase) : Bool :=
  match phase with
  | .propose => false
  | .execute =>
    let cap := action.capability_id
    let scope := specPluginScope cap
    if ((alookup st.plugin_require scope).getD []).any
        (fun p => decide (specPatternMatches p cap)) then true
    else if ((alookup st.plugin_allow scope).getD []).any
        (fun p => decide (specPatternMatches p cap)) then false
    else if st.global_require.any
        (fun p => decide (specPatternMatches p cap)) then true
    else if st.global_allow.any
        (fun p => decide (specPatternMatches p cap)) then false
    else specTierDefault overrides action.risk_tier

theorem matches_pattern_iff_spec (capability_id pattern : String) :
    matches_pattern capability_id pattern = true ↔
      specPatternMatches pattern capability_id := by
  unfold matches_pattern specPatternMatches
  split
  · rename_i hlast
    obtain ⟨p, hp⟩ := List.getLast?_eq_some_iff.mp hlast
    rw [List.isPrefixOf_iff_prefix]
    constructor
    · intro hpre
      exact Or.inr ⟨pattern.toList.dropLast, by rw [hp]; simp, hpre⟩
    · rintro (rfl | ⟨q, hq, hqpre⟩)
      · rw [hp]
        simp
      · rw [hp] at hq ⊢
        simp only [List.dropLast_concat]
        have : q = p := by
          have := List.append_inj_left' hq rfl
          exact this.symm
        rwa [← this]
  · rename_i hlast
    rw [beq_iff_eq]
    constructor
    · intro h
      exact Or.inl h.symm
    · rintro (rfl | ⟨q, hq, -⟩)
      · rfl
      · exact absurd (by rw [hq]; simp) hlast

theorem plugin_id_for_eq_spec (capability_id : String) :
    plugin_id_for capability_id = specPluginScope capability_id := by
  unfold plugin_id_for specPluginScope
  split
  · rfl
  · rename_i hno
    have : capability_id.toList.takeWhile (fun c => c != '.') =
        capability_id.toList := by
      rw [List.takeWhile_eq_self_iff]
      intro c hc
      simp only [bne_iff_ne, ne_eq]
      rintro rfl
      exact hno hc
    rw [this, String.asString_toList]

theorem matches_any_eq_spec (capability_id : String) (patterns : List String) :
    matches_any capability_id patterns =
      patterns.any (fun p => decide (specPatternMatches p capability_id)) := by
  unfold matches_any
  congr 1
  funext p
  rcases h : matches_pattern capability_id p with _ | _
  · have := (not_iff_not.mpr (matches_pattern_iff_spec capability_id p)).mp
      (by simp [h])
    simp [this]
  · have := (matches_pattern_iff_spec capability_id p).mp h
    simp [this]

/-- C3: `requires_approval(action, phase)` is false whenever the phase is
propose; otherwise the decision is the first applicable rule, in order:
plugin-scoped `require` match → true; plugin-scoped `allow` match → false;
global `require` match → true; global `allow` match → false; else the
risk-tier default `{read_only: false, routine: false, transactional: true,
dangerous: true}` as overridden per-tier by configuration.  The plugin
scope is the capability id split at the first `.`, and a pattern matches
iff it equals the id exactly or ends in `*` whose prefix is a prefix of
the id. -/
theorem requires_approval_matches_spec (overrides : RiskTier → Option Bool)
    (blocked : List String) (ga gr : List String)
    (pa pr : List (String × List String))
    (action : PluginActionManifest) (phase : Phase) :
    requires_approval
      ⟨blocked, load_approval_defaults overrides, ga, gr, pa, pr⟩
      action phase =
      requiresApprovalSpec overrides
        ⟨blocked, load_approval_defaults overrides, ga, gr, pa, pr⟩
        action phase := by
  cases phase with
  | propose => rfl
  | execute =>
    unfold requires_approval requiresApprovalSpec
    simp only [if_neg (by simp : ¬(Phase.execute ≠ Phase.execute))]
    rw [plugin_id_for_eq_spec, matches_any_eq_spec, matches_any_eq_spec,
      matches_any_eq_spec, matches_any_eq_spec]
    rfl

/-! ## Collection policy (`PolicyEngine.apply_collection_policy`) -/

/-- `PolicyItem` (`core/models.py`): a plugin attestation about returned
data. -/
structure PolicyItem where
  data_ref : String
  attrs : List (String × PyVal)

/-- `InternalReadResult` (`core/models.py`). -/
structure InternalReadResult where
  data : PyVal
  policy_items : List PolicyItem

/-- Value of a digit string, as Python `int(...)`. -/
def digitsToNat (l : List Char) : Nat :=
  l.foldl (fun acc c => acc * 10 + (c.toNat - '0'.toNat)) 0

/-- `PolicyEngine._parse_item_index`: `items[N]` with a non-empty digit
index, else `None`. -/
def parse_item_index (data_ref : String) : Option Nat :=
  let cs := data_ref.toList
  if cs.take 6 = ['i', 't', 'e', 'm', 's', '['] ∧ cs.getLast? = some ']' then
    let mid := (cs.drop 6).dropLast
    if mid ≠ [] ∧ mid.all (fun c => c.isDigit) then some (digitsToNat mid)
    else Option.none
  else Option.none

/-- Is the item's attested `counterparty_domain` a blocked string? -/
def blockedDomainAttr (blocked : List String) (pi : PolicyItem) : Bool :=
  match alookup pi.attrs "counterparty_domain" with
  | some (PyVal.str d) => blocked.contains d
  | _ => false

/-- One marking step of the `keep` array for one policy item. -/
def markStep (blocked : List String) (n : Nat) (keep : List Bool)
    (pi : PolicyItem) : List Bool :=
  match parse_item_index pi.data_ref with
  | some idx =>
    if idx < n ∧ blockedDomainAttr blocked pi = true then keep.set idx false
    else keep
  | Option.none => keep

/-- The shape of the value returned by `apply_collection_policy`:
an `items` list and a pass-through `next_cursor`. -/
structure CollectionOut where
  items : List PyVal
  next_cursor : Option PyVal

/-- `PolicyEngine.apply_collection_policy` (`core/policy.py`). -/
def apply_collection_policy (blocked : List String)
    (result : InternalReadResult) : CollectionOut :=
  match result.data with
  | PyVal.dict d =>
    match alookup d "items" with
    | some (PyVal.list items) =>
      let keep := result.policy_items.foldl
        (markStep blocked items.length) (List.replicate items.length true)
      let filtered := (items.zip keep).filterMap
        (fun it => if it.2 then some it.1 else Option.none)
      ⟨filtered, alookup d "next_cursor"⟩
    | _ => ⟨[], alookup d "next_cursor"⟩
  | _ => ⟨[], Option.none⟩

theorem markStep_length (blocked : List String) (n : Nat) (keep : List Bool)
    (pi : PolicyItem) : (markStep blocked n keep pi).length = keep.length := by
  unfold markStep
  split
  · split
    · exact List.length_set keep _ _
    · rfl
  · rfl

theorem foldl_markStep_length (blocked : List String) (n : Nat)
    (pis : List PolicyItem) :
    ∀ keep : List Bool,
      (pis.foldl (markStep blocked n) keep).length = keep.length := by
  induction pis with
  | nil => intro keep; rfl
  | cons pi rest ih =>
    intro keep
    rw [List.foldl_cons, ih, markStep_length]

/-- Does one policy item mark index `i` (within bound `n`) for removal? -/
def hitsIdx (blocked : List String) (n i : Nat) (pi : PolicyItem) : Bool :=
  decide (parse_item_index pi.data_ref = some i) && decide (i < n) &&
    blockedDomainAttr blocked pi

theorem foldl_markStep_getD (blocked : List String) (n : Nat)
    (pis : List PolicyItem) :
    ∀ (keep : List Bool) (i : Nat), i < keep.length →
      (pis.foldl (markStep blocked n) keep).getD i true =
        (keep.getD i true && !(pis.any (hitsIdx blocked n i))) := by
  induction pis with
  | nil => intro keep i _; simp
  | cons pi rest ih =>
    intro keep i hi
    rw [List.foldl_cons]
    rw [ih (markStep blocked n keep pi) i (by rw [markStep_length]; exact hi)]
    have hstep : (markStep blocked n keep pi).getD i true =
        (keep.getD i true && !(hitsIdx blocked n i pi)) := by
      unfold markStep hitsIdx
      cases hp : parse_item_index pi.data_ref with
      | none => simp
      | some idx =>
        change (if idx < n ∧ blockedDomainAttr blocked pi = true then
            keep.set idx false else keep).getD i true = _
        by_cases hg : idx < n ∧ blockedDomainAttr blocked pi = true
        · rw [if_pos hg]
          by_cases hidx : idx = i
          · subst hidx
            rw [List.getD_eq_getElem?_getD, List.getElem?_set, if_pos rfl,
              if_pos (by omega)]
            simp [hg.1, hg.2]
          · rw [List.getD_eq_getElem?_getD, List.getElem?_set, if_neg hidx,
              ← List.getD_eq_getElem?_getD]
            simp only [Option.some.injEq]
            rw [show (decide (idx = i) : Bool) = false by simp [hidx]]
            simp
        · rw [if_neg hg]
          by_cases hidx : idx = i
          · subst hidx
            have hng : (decide (idx < n) && blockedDomainAttr blocked pi) =
                false := by
              rcases Decidable.not_and_iff_or_not.mp hg with h | h
              · simp [h]
              · simp [Bool.eq_false_iff.mpr h]
            simp [Bool.and_assoc, hng]
          · simp only [Option.some.injEq]
            rw [show (decide (idx = i) : Bool) = false by simp [hidx]]
            simp
    rw [hstep]
    rw [List.any_cons]
    cases hx : hitsIdx blocked n i pi <;>
      cases hy : rest.any (hitsIdx blocked n i) <;>
      cases hz : keep.getD i true <;> simp [hx, hy, hz]

theorem getD_replicate_true (n i : Nat) (hi : i < n) :
    (List.replicate n true).getD i true = true := by
  induction n generalizing i with
  | zero => omega
  | succ m ih =>
    cases i with
    | zero => rfl
    | succ j =>
      rw [List.replicate_succ, List.getD_cons_succ]
      exact ih j (by omega)

theorem zip_filterMap_eq_enumFrom (f : Nat → Bool) :
    ∀ (items : List PyVal) (keep : List Bool) (s : Nat),
      keep.length = items.length →
      (∀ i, i < keep.length → keep.getD i true = f (s + i)) →
      (items.zip keep).filterMap
          (fun it => if it.2 then some it.1 else Option.none) =
        ((List.enumFrom s items).filter (fun p => f p.1)).map Prod.snd := by
  intro items
  induction items with
  | nil => intro keep s _ _; simp
  | cons x xs ih =>
    intro keep s hlen hval
    cases keep with
    | nil => simp at hlen
    | cons b ks =>
      have hb : b = f s := by
        have := hval 0 (by simp)
        simpa using this
      have hrec := ih ks (s + 1) (by simpa using hlen)
        (fun i hi => by
          have := hval (i + 1) (by simpa using Nat.succ_lt_succ hi)
          rw [List.getD_cons_succ] at this
          rw [this]
          congr 1
          omega)
      rw [List.zip_cons_cons, List.filterMap_cons, List.enumFrom_cons,
        List.filter_cons, hb]
      cases hf : f s with
      | false => simpa using hrec
      | true => simp [hrec]

theorem any_congr_mem {α : Type} {f g : α → Bool} :
    ∀ {l : List α}, (∀ x ∈ l, f x = g x) → l.any f = l.any g := by
  intro l
  induction l with
  | nil => intro _; rfl
  | cons x xs ih =>
    intro h
    rw [List.any_cons, List.any_cons, h x (by simp),
      ih (fun y hy => h y (by simp [hy]))]

/-- C6: for a collection read whose data is a mapping containing an
`items` list, the returned items are exactly the original items, in their
original order, minus every item whose zero-based index is named by some
policy item `items[N]` carrying a blocked `counterparty_domain`; policy
items naming out-of-range indices have no effect, and `next_cursor` is
passed through unchanged from the plugin's data. -/
theorem apply_collection_policy_filters (blocked : List String)
    (kvs : List (String × PyVal)) (items : List PyVal)
    (pis : List PolicyItem)
    (hitems : alookup kvs "items" = some (PyVal.list items)) :
    apply_collection_policy blocked ⟨PyVal.dict kvs, pis⟩ =
      ⟨(items.enum.filter (fun p =>
          !(pis.any (fun pi =>
            decide (parse_item_index pi.data_ref = some p.1) &&
              blockedDomainAttr blocked pi)))).map Prod.snd,
        alookup kvs "next_cursor"⟩ := by
  unfold apply_collection_policy
  simp only [hitems]
  set keep := pis.foldl (markStep blocked items.length)
    (List.replicate items.length true) with hkeep
  have hlen : keep.length = items.length := by
    rw [hkeep, foldl_markStep_length, List.length_replicate]
  have hval : ∀ i, i < keep.length →
      keep.getD i true = !(pis.any (hitsIdx blocked items.length i)) := by
    intro i hi
    rw [hkeep, foldl_markStep_getD blocked items.length pis _ i
      (by rw [List.length_replicate]; rw [hlen] at hi; exact hi)]
    rw [getD_replicate_true _ _ (by rw [hlen] at hi; exact hi)]
    simp
  have hzip := zip_filterMap_eq_enumFrom
    (fun i => !(pis.any (hitsIdx blocked items.length i))) items keep 0 hlen
    (fun i hi => by simpa using hval i hi)
  have henum : items.enum = List.enumFrom 0 items := rfl
  refine congrArg₂ CollectionOut.mk ?_ rfl
  rw [hzip, henum]
  congr 1
  apply List.filter_congr
  rintro ⟨i, a⟩ hmem
  have hilt : i < items.length := (List.mem_enum hmem).1
  show (!pis.any (hitsIdx blocked items.length i)) =
    (!pis.any (fun pi => decide (parse_item_index pi.data_ref = some i) &&
      blockedDomainAttr blocked pi))
  congr 1
  apply any_congr_mem
  intro pi _
  unfold hitsIdx
  by_cases hp : parse_item_index pi.data_ref = some i
  · simp [hp, hilt]
  · simp [hp]

/-- Witness for C6 at a concrete collection read. -/
theorem apply_collection_policy_filters_witness :
    alookup [("items", PyVal.list [PyVal.int 0, PyVal.int 1]),
        ("next_cursor", PyVal.str "c")] "items" =
      some (PyVal.list [PyVal.int 0, PyVal.int 1]) ∧
    apply_collection_policy ["blocked.example"]
        ⟨PyVal.dict [("items", PyVal.list [PyVal.int 0, PyVal.int 1]),
          ("next_cursor", PyVal.str "c")],
         [⟨"items[0]",
           [("counterparty_domain", PyVal.str "blocked.example")]⟩]⟩ =
      ⟨(([PyVal.int 0, PyVal.int 1].enum.filter (fun p =>
          !([(⟨"items[0]",
              [("counterparty_domain", PyVal.str "blocked.example")]⟩ :
              PolicyItem)].any (fun pi =>
            decide (parse_item_index pi.data_ref = some p.1) &&
              blockedDomainAttr ["blocked.example"] pi)))).map Prod.snd),
        alookup [("items", PyVal.list [PyVal.int 0, PyVal.int 1]),
          ("next_cursor", PyVal.str "c")] "next_cursor"⟩ :=
  ⟨rfl, apply_collection_policy_filters ["blocked.example"] _ _ _ rfl⟩

/-- C10: `apply_collection_policy` is total with the `{items, next_cursor}`
shape: non-mapping data yields `{items: [], next_cursor: None}`; mapping
data without a list under `items` yields `{items: [],
next_cursor: data["next_cursor"]}`. -/
theorem apply_collection_policy_total (blocked : List String) (data : PyVal)
    (pis : List PolicyItem) :
    ((∀ kvs, data ≠ PyVal.dict kvs) →
      apply_collection_policy blocked ⟨data, pis⟩ = ⟨[], Option.none⟩) ∧
    (∀ kvs, data = PyVal.dict kvs →
      (∀ xs, alookup kvs "items" ≠ some (PyVal.list xs)) →
      apply_collection_policy blocked ⟨data, pis⟩ =
        ⟨[], alookup kvs "next_cursor"⟩) := by
  constructor
  · intro hnd
    cases data with
    | dict kvs => exact absurd rfl (hnd kvs)
    | str s => rfl
    | int n => rfl
    | bool b => rfl
    | none => rfl
    | list xs => rfl
  · rintro kvs rfl hni
    unfold apply_collection_policy
    split
    · rename_i d heq
      injection heq with heq
      subst heq
      split
      · rename_i items heq2
        exact absurd heq2 (hni items)
      · rfl
    · rename_i x hx
      exact absurd rfl (hx kvs)

/-- Witness for C10 at a bare-list datum and at a mapping whose `items` is
not a list. -/
theorem apply_collection_policy_total_witness :
    (∀ kvs, PyVal.list [] ≠ PyVal.dict kvs) ∧
      apply_collection_policy ["blocked.example"] ⟨PyVal.list [], []⟩ =
        ⟨[], Option.none⟩ ∧
      (∀ xs, alookup [("items", PyVal.int 1), ("next_cursor", PyVal.str "n")]
          "items" ≠ some (PyVal.list xs)) ∧
      apply_collection_policy ["blocked.example"]
          ⟨PyVal.dict [("items", PyVal.int 1),
            ("next_cursor", PyVal.str "n")], []⟩ =
        ⟨[], alookup [("items", PyVal.int 1), ("next_cursor", PyVal.str "n")]
          "next_cursor"⟩ := by
  have h1 : ∀ kvs, PyVal.list [] ≠ PyVal.dict kvs :=
    fun _ h => PyVal.noConfusion h
  have h2 : ∀ xs, alookup [("items", PyVal.int 1),
      ("next_cursor", PyVal.str "n")] "items" ≠ some (PyVal.list xs) := by
    intro xs h
    simp [alookup] at h
  exact ⟨h1, (apply_collection_policy_total ["blocked.example"]
      (PyVal.list []) []).1 h1, h2,
    (apply_collection_policy_total ["blocked.example"] _ []).2 _ rfl h2⟩

/-! ## Approval store (`core/approvals.py`) -/

/-- Error currency of the API (`core/exceptions.py`): status code and
machine-readable code. -/
structure ApiError where
  status_code : Nat
  code : String
deriving DecidableEq

/-- `ApprovalTicket` (`core/models.py`). -/
structure ApprovalTicket where
  id : String
  status : String
  summary : String
  proposed_effect : List (String × PyVal)
  fingerprint : String
  capability_id : String

/-- The approval store's state: ticket map in insertion order plus a
counter standing in for `uuid4` freshness.  (`_updated_at` is write-only
audit metadata no code path reads; it is omitted.) -/
structure ApprovalStoreState where
  tickets : List (String × ApprovalTicket)
  counter : Nat

/-- `ApprovalStore.create_ticket`: generate a fresh opaque id, store a
pending ticket. -/
def create_ticket (st : ApprovalStoreState) (summary : String)
    (proposed_effect : List (String × PyVal))
    (capability_id fingerprint : String) :
    ApprovalTicket × ApprovalStoreState :=
  let ticket_id := "appr_" ++ toString st.counter
  let t : ApprovalTicket :=
    ⟨ticket_id, "pending", summary, proposed_effect, fingerprint,
      capability_id⟩
  (t, ⟨aset st.tickets ticket_id t, st.counter + 1⟩)

/-- `ApprovalStore.get`: 404 for an unknown ticket id. -/
def approvals_get (st : ApprovalStoreState) (ticket_id : String) :
    Except ApiError ApprovalTicket :=
  match alookup st.tickets ticket_id with
  | some t => Except.ok t
  | Option.none => Except.error ⟨404, "NOT_FOUND"⟩

/-- `ApprovalStore.set_status` (`core/approvals.py`), returning the ticket
snapshot and the new store state. -/
def set_status (st : ApprovalStoreState) (ticket_id status : String) :
    Except ApiError (ApprovalTicket × ApprovalStoreState) :=
  if status ≠ "approved" ∧ status ≠ "denied" then
    Except.error ⟨400, "VALIDATION_ERROR"⟩
  else
    match alookup st.tickets ticket_id with
    | Option.none => Except.error ⟨404, "NOT_FOUND"⟩
    | some t =>
      if t.status = status then Except.ok (t, st)
      else if t.status ≠ "pending" then
        Except.error ⟨400, "APPROVAL_ALREADY_FINALIZED"⟩
      else
        let updated := { t with status := status }
        Except.ok (updated, ⟨aset st.tickets ticket_id updated, st.counter⟩)

/-- `ApprovalStore.find_for_fingerprint`: first ticket in insertion order
matching capability, fingerprint and one of the statuses. -/
def find_for_fingerprint (st : ApprovalStoreState)
    (capability_id fingerprint : String) (statuses : List String) :
    Option ApprovalTicket :=
  match st.tickets.find? (fun kv =>
    kv.2.capability_id == capability_id &&
      kv.2.fingerprint == fingerprint &&
      statuses.contains kv.2.status) with
  | some kv => some kv.2
  | Option.none => Option.none

/-- Claim C4's case analysis, in the exact order the claim states it:
unknown ticket first, then invalid status, then idempotent return,
then finalized, then the pending transition. -/
def setStatusClaimOrder (st : ApprovalStoreState) (ticket_id status : String) :
    Except ApiError (ApprovalTicket × ApprovalStoreState) :=
  match alookup st.tickets ticket_id with
  | Option.none => Except.error ⟨404, "NOT_FOUND"⟩
  | some t =>
    if status ∉ (["approved", "denied"] : List String) then
      Except.error ⟨400, "VALIDATION_ERROR"⟩
    else if t.status = status then Except.ok (t, st)
    else if t.status ≠ "pending" then
      Except.error ⟨400, "APPROVAL_ALREADY_FINALIZED"⟩
    else
      let updated := { t with status := status }
      Except.ok (updated, ⟨aset st.tickets ticket_id updated, st.counter⟩)

/-- Counterexample to C4 as stated: on an unknown ticket id together with
an invalid status value, the code answers 400 `VALIDATION_ERROR`, while
the claim's case order (unknown id first) answers 404 `NOT_FOUND`. -/
theorem set_status_order_counterexample :
    set_status ⟨[], 0⟩ "t1" "bogus" =
        Except.error ⟨400, "VALIDATION_ERROR"⟩ ∧
      setStatusClaimOrder ⟨[], 0⟩ "t1" "bogus" =
        Except.error ⟨404, "NOT_FOUND"⟩ ∧
      set_status ⟨[], 0⟩ "t1" "bogus" ≠
        setStatusClaimOrder ⟨[], 0⟩ "t1" "bogus" := by
  refine ⟨rfl, rfl, ?_⟩
  intro h
  rw [show set_status ⟨[], 0⟩ "t1" "bogus" =
      Except.error ⟨400, "VALIDATION_ERROR"⟩ from rfl,
    show setStatusClaimOrder ⟨[], 0⟩ "t1" "bogus" =
      Except.error ⟨404, "NOT_FOUND"⟩ from rfl] at h
  injection h with h
  injection h with h
  exact absurd h (by decide)

/-- Claim C4's case analysis amended: the invalid-status check precedes the
unknown-ticket check (the code validates the requested status first). -/
def setStatusAmended (st : ApprovalStoreState) (ticket_id status : String) :
    Except ApiError (ApprovalTicket × ApprovalStoreState) :=
  if status ∉ (["approved", "denied"] : List String) then
    Except.error ⟨400, "VALIDATION_ERROR"⟩
  else
    match alookup st.tickets ticket_id with
    | Option.none => Except.error ⟨404, "NOT_FOUND"⟩
    | some t =>
      if t.status = status then Except.ok (t, st)
      else if t.status ≠ "pending" then
        Except.error ⟨400, "APPROVAL_ALREADY_FINALIZED"⟩
      else
        let updated := { t with status := status }
        Except.ok (updated, ⟨aset st.tickets ticket_id updated, st.counter⟩)

/-- C4 (amended): `set_status` behaves as the claim's case analysis with
the first two cases swapped: invalid target status → 400
`VALIDATION_ERROR`; unknown ticket → 404 `NOT_FOUND`; same status →
returned unchanged; non-pending and different → 400
`APPROVAL_ALREADY_FINALIZED`; pending → transition to the new snapshot.
Hence a non-pending ticket is terminal and pending→s is the only
non-identity transition. -/
theorem set_status_eq_amended_cases (st : ApprovalStoreState)
    (ticket_id status : String) :
    set_status st ticket_id status = setStatusAmended st ticket_id status := by
  unfold set_status setStatusAmended
  by_cases h : status ∉ (["approved", "denied"] : List String)
  · rw [if_pos h, if_pos (by simp at h; exact ⟨h.1, h.2⟩)]
  · rw [if_neg h, if_neg (by
      simp only [List.mem_cons, List.mem_singleton, not_or, not_not] at h ⊢
      simpa using h)]

/-- C9: whenever `set_status` succeeds, at most the status field of the
addressed ticket changes — its id, summary, proposed_effect, fingerprint
and capability_id are preserved — and every other ticket in the store is
unchanged. -/
theorem set_status_frame (st : ApprovalStoreState) (ticket_id status : String)
    (t' : ApprovalTicket) (st' : ApprovalStoreState)
    (h : set_status st ticket_id status = Except.ok (t', st')) :
    ∃ t0, alookup st.tickets ticket_id = some t0 ∧
      t'.id = t0.id ∧ t'.summary = t0.summary ∧
      t'.proposed_effect = t0.proposed_effect ∧
      t'.fingerprint = t0.fingerprint ∧
      t'.capability_id = t0.capability_id ∧
      alookup st'.tickets ticket_id = some t' ∧
      (∀ k, k ≠ ticket_id → alookup st'.tickets k = alookup st.tickets k) := by
  unfold set_status at h
  split at h
  · exact absurd h (by simp)
  · split at h
    · exact absurd h (by simp)
    · rename_i t hfound
      split at h
      · rename_i hsame
        injection h with h
        obtain ⟨rfl, rfl⟩ := Prod.mk.injEq .. ▸ (by exact congrArg id h :
          (t, st) = (t', st'))
        exact ⟨t, hfound, rfl, rfl, rfl, rfl, rfl, hfound, fun _ _ => rfl⟩
      · split at h
        · exact absurd h (by simp)
        · injection h with h
          obtain ⟨rfl, rfl⟩ := Prod.mk.injEq .. ▸ (by exact congrArg id h :
            ({ t with status := status }, _) = (t', st'))
          refine ⟨t, hfound, rfl, rfl, rfl, rfl, rfl, ?_, ?_⟩
          · exact alookup_aset_self st.tickets ticket_id _
          · intro k hk
            exact alookup_aset_ne st.tickets ticket_id k _ (Ne.symm hk)

/-- Witness for C9: approving a concrete pending ticket. -/
theorem set_status_frame_witness :
    set_status
        ⟨[("appr_0", ⟨"appr_0", "pending", "s", [], "fp", "cap"⟩)], 1⟩
        "appr_0" "approved" =
      Except.ok (⟨"appr_0", "approved", "s", [], "fp", "cap"⟩,
        ⟨[("appr_0", ⟨"appr_0", "approved", "s", [], "fp", "cap"⟩)], 1⟩) ∧
    (∃ t0, alookup [("appr_0",
          (⟨"appr_0", "pending", "s", [], "fp", "cap"⟩ : ApprovalTicket))]
          "appr_0" = some t0 ∧
      (⟨"appr_0", "approved", "s", [], "fp", "cap"⟩ : ApprovalTicket).id =
        t0.id ∧
      (⟨"appr_0", "approved", "s", [], "fp", "cap"⟩ :
        ApprovalTicket).summary = t0.summary ∧
      (⟨"appr_0", "approved", "s", [], "fp", "cap"⟩ :
        ApprovalTicket).proposed_effect = t0.proposed_effect ∧
      (⟨"appr_0", "approved", "s", [], "fp", "cap"⟩ :
        ApprovalTicket).fingerprint = t0.fingerprint ∧
      (⟨"appr_0", "approved", "s", [], "fp", "cap"⟩ :
        ApprovalTicket).capability_id = t0.capability_id ∧
      alookup [("appr_0",
          (⟨"appr_0", "approved", "s", [], "fp", "cap"⟩ : ApprovalTicket))]
          "appr_0" =
        some ⟨"appr_0", "approved", "s", [], "fp", "cap"⟩ ∧
      (∀ k, k ≠ "appr_0" →
        alookup [("appr_0",
          (⟨"appr_0", "approved", "s", [], "fp", "cap"⟩ : ApprovalTicket))]
          k =
        alookup [("appr_0",
          (⟨"appr_0", "pending", "s", [], "fp", "cap"⟩ : ApprovalTicket))]
          k)) := by
  have h : set_status
      ⟨[("appr_0", ⟨"appr_0", "pending", "s", [], "fp", "cap"⟩)], 1⟩
      "appr_0" "approved" =
    Except.ok ((⟨"appr_0", "approved", "s", [], "fp", "cap"⟩ : ApprovalTicket),
      (⟨[("appr_0", ⟨"appr_0", "approved", "s", [], "fp", "cap"⟩)], 1⟩ :
        ApprovalStoreState)) := rfl
  exact ⟨h, set_status_frame _ "appr_0" "approved" _ _ h⟩

/-! ## Collection-read query filters (`list_resource`, `api/routes.py` and
`api/app.py`) -/

/-- The filter computation of `list_resource`: every query parameter whose
key is not in `{"limit", "cursor", "sort", "q"}` flows into `filters`. -/
def extract_filters (query_params : List (String × String)) :
    List (String × String) :=
  query_params.filter
    (fun kv => !(["limit", "cursor", "sort", "q"] : List String).contains kv.1)

/-- Counterexample to C8 as stated: a supplied `max_chars` query parameter
does appear in the filters map of a collection read. -/
theorem extract_filters_counterexample :
    extract_filters [("max_chars", "5")] = [("max_chars", "5")] ∧
      ¬(∀ kv ∈ extract_filters [("max_chars", "5")],
        kv.1 ∉ (["limit", "cursor", "sort", "q", "max_chars"] :
          List String)) := by
  constructor
  · rfl
  · intro h
    exact absurd (by decide) (h ("max_chars", "5") (by decide))

/-- C8 (amended): on collection reads exactly the four query parameters
`limit`, `cursor`, `sort` and `q` are reserved: none of the four appears
in the filters map passed to the plugin, and every other supplied query
parameter — `max_chars` included — appears in filters with its supplied
value. -/
theorem extract_filters_spec (qp : List (String × String)) (k v : String) :
    (k, v) ∈ extract_filters qp ↔
      (k, v) ∈ qp ∧ k ∉ (["limit", "cursor", "sort", "q"] : List String) := by
  unfold extract_filters
  rw [List.mem_filter]
  simp

/-! ## Sidecar transport (`core/sidecar.py`) -/

/-- The result handling of `_request_json` for a 2xx response: an empty
body yields `{}`, a JSON object body is returned as-is, any other JSON
body is `SIDECAR_BAD_RESPONSE`. -/
def request_json_result (body : Option PyVal) : Except ApiError PyVal :=
  match body with
  | Option.none => Except.ok (PyVal.dict [])
  | some b =>
    match b with
    | PyVal.dict kvs => Except.ok (PyVal.dict kvs)
    | _ => Except.error ⟨500, "SIDECAR_BAD_RESPONSE"⟩

/-- Modelled from the claim's words: a top-level `{data: X}` envelope
unwraps to `X`. -/
def specUnwrapEnvelope (b : PyVal) : PyVal :=
  match b with
  | PyVal.dict [("data", x)] => x
  | _ => b

/-- `ActionStatus` (`core/models.py`). -/
inductive ActionStatus where
  | success
  | blocked
deriving DecidableEq

/-- `InternalActionResult` (`core/models.py`). -/
structure InternalActionResult where
  status : ActionStatus
  result : List (String × PyVal)
  summary : Option String
  proposed_effect : List (String × PyVal)
  policy_items : List PolicyItem

/-- Pydantic validation of the `status` field: defaults to `success`. -/
def validate_status : Option PyVal → Except String ActionStatus
  | Option.none => Except.ok ActionStatus.success
  | some (PyVal.str "success") => Except.ok ActionStatus.success
  | some (PyVal.str "blocked") => Except.ok ActionStatus.blocked
  | some _ => Except.error "status must be success or blocked"

/-- Pydantic validation of a dict-valued field with default `{}`. -/
def validate_dict_field : Option PyVal → Except String (List (String × PyVal))
  | Option.none => Except.ok []
  | some (PyVal.dict kvs) => Except.ok kvs
  | some _ => Except.error "field must be an object"

/-- Pydantic validation of `summary : str | None = None`. -/
def validate_summary : Option PyVal → Except String (Option String)
  | Option.none => Except.ok Option.none
  | some (PyVal.str s) => Except.ok (some s)
  | some PyVal.none => Except.ok Option.none
  | some _ => Except.error "summary must be a string"

/-- Pydantic validation of one `PolicyItem`: `data_ref` is a required
string, `attrs` an object defaulting to `{}`. -/
def validate_policy_item : PyVal → Except String PolicyItem
  | PyVal.dict kvs =>
    match alookup kvs "data_ref" with
    | some (PyVal.str r) =>
      match validate_dict_field (alookup kvs "attrs") with
      | Except.ok attrs => Except.ok ⟨r, attrs⟩
      | Except.error e => Except.error e
    | _ => Except.error "policy item needs a string data_ref"
  | _ => Except.error "policy item must be an object"

/-- Pydantic validation of `policy_items : list[PolicyItem] = []`. -/
def validate_policy_items : Option PyVal → Except String (List PolicyItem)
  | Option.none => Except.ok []
  | some (PyVal.list xs) => xs.mapM validate_policy_item
  | some _ => Except.error "policy_items must be a list"

/-- `InternalActionResult.model_validate`: pydantic ignores extra keys and
fills defaults for missing ones. -/
def validate_internal_action_result (v : PyVal) :
    Except String InternalActionResult :=
  match v with
  | PyVal.dict kvs => do
    let status ← validate_status (alookup kvs "status")
    let result ← validate_dict_field (alookup kvs "result")
    let summary ← validate_summary (alookup kvs "summary")
    let proposed ← validate_dict_field (alookup kvs "proposed_effect")
    let pis ← validate_policy_items (alookup kvs "policy_items")
    Except.ok ⟨status, result, summary, proposed, pis⟩
  | _ => Except.error "result must be an object"

/-- Counterexample to C7 as stated: for a 2xx `run_action` response whose
object body is exactly `{"data": X}`, the transport does not unwrap the
envelope — it validates the whole body, ignoring the `data` key — while
the claimed unwrapping would use `X` (observable: a blocked status inside
the envelope is lost). -/
theorem sidecar_envelope_counterexample :
    request_json_result
        (some (PyVal.dict [("data",
          PyVal.dict [("status", PyVal.str "blocked")])])) =
      Except.ok (PyVal.dict [("data",
        PyVal.dict [("status", PyVal.str "blocked")])]) ∧
    specUnwrapEnvelope (PyVal.dict [("data",
        PyVal.dict [("status", PyVal.str "blocked")])]) =
      PyVal.dict [("status", PyVal.str "blocked")] ∧
    (validate_internal_action_result (PyVal.dict [("data",
        PyVal.dict [("status", PyVal.str "blocked")])])).map
      InternalActionResult.status = Except.ok ActionStatus.success ∧
    (validate_internal_action_result (specUnwrapEnvelope
        (PyVal.dict [("data",
          PyVal.dict [("status", PyVal.str "blocked")])]))).map
      InternalActionResult.status = Except.ok ActionStatus.blocked :=
  ⟨rfl, rfl, rfl, rfl⟩

/-- C7 (amended): the sidecar transport passes every 2xx JSON-object body
through unchanged — no `{data: X}` envelope unwrapping occurs; in
particular, a `run_action` body `{"data": X}` validates to the all-default
`InternalActionResult` regardless of `X`. -/
theorem sidecar_no_envelope_unwrap (X : PyVal)
    (kvs : List (String × PyVal)) :
    request_json_result (some (PyVal.dict kvs)) =
        Except.ok (PyVal.dict kvs) ∧
      validate_internal_action_result (PyVal.dict [("data", X)]) =
        Except.ok ⟨ActionStatus.success, [], Option.none, [], []⟩ :=
  ⟨rfl, rfl⟩

/-! ## Authentication (`core/auth.py`) -/

/-- `TokenRecord` (`core/auth.py`). -/
structure TokenRecord where
  token : String
  agent_id : String
  tailscale_identity : String
  capabilities : List String

/-- `AgentPrincipal` (`core/auth.py`). -/
structure AgentPrincipal where
  agent_id : String
  tailscale_identity : String
  capabilities : List String

/-- The loaded `AuthService`: the `require_auth` flag and the token table. -/
structure AuthServiceState where
  require_auth : Bool
  tokens : List (String × TokenRecord)

/-- The two request headers authentication reads. -/
structure HttpHeaders where
  authorization : Option String
  x_tailscale_identity : Option String

/-- Python `str.strip()`. -/
def strip_str (s : String) : String := (pyStrip s.toList).asString

/-- `AuthService._extract_bearer_token`: the `Authorization` header
(defaulting to the empty string) must start with `Bearer ` followed by a
non-empty (stripped) token. -/
def extract_bearer_token (headers : HttpHeaders) : Except ApiError String :=
  let authorization := headers.authorization.getD ""
  if ¬ ("Bearer ".toList.isPrefixOf authorization.toList) then
    Except.error ⟨401, "UNAUTHORIZED"⟩
  else
    let token := strip_str (authorization.toList.drop 7).asString
    if token = "" then Except.error ⟨401, "UNAUTHORIZED"⟩
    else Except.ok token

/-- `AuthService.authenticate` (`core/auth.py`). -/
def authenticate (svc : AuthServiceState) (headers : HttpHeaders) :
    Except ApiError AgentPrincipal :=
  if ¬ svc.require_auth then
    Except.ok ⟨"anonymous", "*", ["*"]⟩
  else
    match extract_bearer_token headers with
    | Except.error e => Except.error e
    | Except.ok token =>
      let tailscale_identity := headers.x_tailscale_identity.getD ""
      if tailscale_identity = "" then Except.error ⟨401, "UNAUTHORIZED"⟩
      else
        match alookup svc.tokens token with
        | Option.none => Except.error ⟨401, "UNAUTHORIZED"⟩
        | some record =>
          if record.tailscale_identity ≠ "*" ∧
              record.tailscale_identity ≠ tailscale_identity then
            Except.error ⟨401, "UNAUTHORIZED"⟩
          else
            Except.ok ⟨record.agent_id, tailscale_identity,
              record.capabilities⟩

/-- `AgentPrincipal.can`: universal capability, exact match, or a
trailing-`.*` pattern whose stem prefixes the capability id. -/
def can (p : AgentPrincipal) (capability_id : String) : Bool :=
  p.capabilities.contains "*" || p.capabilities.contains capability_id ||
    p.capabilities.any (fun c =>
      ([ '.', '*' ] : List Char).isSuffixOf c.toList &&
        c.toList.dropLast.isPrefixOf capability_id.toList)

/-- `AuthService.require_capability`: 403 `CAPABILITY_DENIED` on denial. -/
def require_capability (p : AgentPrincipal) (capability_id : String) :
    Except ApiError Unit :=
  if can p capability_id then Except.ok ()
  else Except.error ⟨403, "CAPABILITY_DENIED"⟩

/-! ## Plugin registry (`core/plugin_registry.py`) -/

/-- `ActionContext` (`core/plugin_registry.py`). -/
structure ActionContext where
  plugin_id : String
  phase : Phase
  action : PluginActionManifest
  resource : Option String
  resource_id : Option String

/-- A plugin as the mediation pipeline sees it: its declared actions and
its `run_action` behaviour (a pure function standing for the backend). -/
structure Plugin where
  actions : List PluginActionManifest
  run : ActionContext → List (String × PyVal) → InternalActionResult

/-- `PluginRegistry.resolve_action`: find the action manifest matching
both name and resource binding; missing plugin or action → 404. -/
def resolve_action (registry : List (String × Plugin)) (plugin_id : String)
    (action_name : String) (resource : Option String) :
    Except ApiError PluginActionManifest :=
  match alookup registry plugin_id with
  | Option.none => Except.error ⟨404, "NOT_FOUND"⟩
  | some plugin =>
    match plugin.actions.find? (fun a =>
      a.name == action_name && a.resource == resource) with
    | some a => Except.ok a
    | Option.none => Except.error ⟨404, "NOT_FOUND"⟩

/-! ## Action request validation (`PolicyEngine.validate_action_request`) -/

/-- `PolicyEngine._domain_for`: match `^[^@\s]+@([^@\s]+)$` against the
stripped value; the lowercased domain part on success. -/
def domain_for (value : String) : Option String :=
  let t := pyStrip value.toList
  let lpart := t.takeWhile (fun c => c != '@')
  match t.drop lpart.length with
  | '@' :: dpart =>
    if lpart ≠ [] ∧ dpart ≠ [] ∧ lpart.all (fun c => !isPySpace c) ∧
        dpart.all (fun c => c != '@' && !isPySpace c) then
      some (dpart.map Char.toLower).asString
    else Option.none
  | _ => Option.none

/-- `PolicyEngine._extract_domains_from_args`: domains found under the
well-known recipient keys (scalar or list of strings; the code collects a
set, used only for a membership test). -/
def extract_domains_from_args (args : List (String × PyVal)) : List String :=
  (["to", "cc", "bcc", "principal", "counterparty"] : List String).foldl
    (fun acc key =>
      match alookup args key with
      | Option.none => acc
      | some PyVal.none => acc
      | some raw =>
        let values := match raw with
          | PyVal.list xs => xs
          | v => [v]
        values.foldl (fun acc v =>
          match v with
          | PyVal.str s =>
            match domain_for s with
            | some d => acc ++ [d]
            | Option.none => acc
          | _ => acc) acc) []

/-- `PolicyEngine.validate_action_request` (`core/policy.py`). -/
def validate_action_request (st : PolicyEngineState)
    (action : PluginActionManifest) (phase : Phase)
    (idempotency_key : Option String) (args : List (String × PyVal)) :
    Except ApiError Unit :=
  if phase = Phase.execute ∧ action.requires_idempotency = true ∧
      idempotency_key.getD "" = "" then
    Except.error ⟨400, "IDEMPOTENCY_KEY_REQUIRED"⟩
  else if (extract_domains_from_args args).any
      (fun d => st.blocked_domains.contains d) then
    Except.error ⟨403, "POLICY_BLOCKED"⟩
  else Except.ok ()

/-! ## Idempotency store (`core/idempotency.py`) -/

/-- `IdempotencyRecord` (`core/idempotency.py`). -/
structure IdempotencyRecord where
  request_hash : String
  status_code : Nat
  payload : PyVal

/-- `IdempotencyStore._record_key`. -/
def record_key (scope idempotency_key : String) : String :=
  scope ++ ":" ++ idempotency_key

/-- `IdempotencyStore.fetch_or_validate`: miss → none; hit with the same
hash → the record; hit with a different hash → 400
`IDEMPOTENCY_KEY_REUSED`. -/
def fetch_or_validate (records : List (String × IdempotencyRecord))
    (scope idempotency_key request_hash : String) :
    Except ApiError (Option IdempotencyRecord) :=
  match alookup records (record_key scope idempotency_key) with
  | Option.none => Except.ok Option.none
  | some r =>
    if r.request_hash ≠ request_hash then
      Except.error ⟨400, "IDEMPOTENCY_KEY_REUSED"⟩
    else Except.ok (some r)

/-- `IdempotencyStore.save`: unconditional overwrite. -/
def idem_save (records : List (String × IdempotencyRecord))
    (scope idempotency_key request_hash : String) (status_code : Nat)
    (payload : PyVal) : List (String × IdempotencyRecord) :=
  aset records (record_key scope idempotency_key)
    ⟨request_hash, status_code, payload⟩

/-! ## Request hashing (`_hash_payload`, `api/actions.py` / `api/app.py`)

`_hash_payload` is the SHA-256 hex digest of the canonical JSON
serialization (keys sorted, no inter-token whitespace).  The pipeline only
ever compares these hashes for equality, so the hash is modelled as the
canonical serialization itself (deterministic; fuel-based so that it is
structurally recursive). -/

/-- Dict keys sorted, as `json.dumps(..., sort_keys=True)`. -/
def sortKvs (kvs : List (String × PyVal)) : List (String × PyVal) :=
  kvs.insertionSort (fun a b => a.1 < b.1)

/-- The model's JSON string quoting (escaping is irrelevant to every
claim; determinism is all the pipeline uses). -/
def jsonQuote (s : String) : String := "\"" ++ s ++ "\""

/-- Canonical JSON serialization with recursion fuel. -/
def cjFuel : Nat → PyVal → String
  | 0, _ => ""
  | fuel + 1, v =>
    match v with
    | PyVal.str s => jsonQuote s
    | PyVal.int n => toString n
    | PyVal.bool b => cond b "true" "false"
    | PyVal.none => "null"
    | PyVal.list xs =>
      "[" ++ String.intercalate "," (xs.map (cjFuel fuel)) ++ "]"
    | PyVal.dict kvs =>
      "\x7b" ++ String.intercalate ","
        ((sortKvs kvs).map (fun kv => jsonQuote kv.1 ++ ":" ++ cjFuel fuel kv.2))
        ++ "\x7d"

/-- Nesting depth of a value, enough fuel for `cjFuel`. -/
def pyvalFuel : PyVal → Nat
  | PyVal.str _ => 1
  | PyVal.int _ => 1
  | PyVal.bool _ => 1
  | PyVal.none => 1
  | PyVal.list xs => 1 + (xs.attach.map (fun x => pyvalFuel x.1)).foldl max 0
  | PyVal.dict kvs =>
    1 + (kvs.attach.map (fun kv => pyvalFuel kv.1.2)).foldl max 0
decreasing_by
  · have h := List.sizeOf_lt_of_mem x.2
    have h3 : sizeOf (PyVal.list xs) = 1 + sizeOf xs := by simp
    omega
  · have h := List.sizeOf_lt_of_mem kv.2
    have h2 : sizeOf kv.1.2 < sizeOf kv.1 := by
      obtain ⟨⟨a, b⟩, hm⟩ := kv
      simp
    have h3 : sizeOf (PyVal.dict kvs) = 1 + sizeOf kvs := by simp
    omega

/-- `_hash_payload`: deterministic digest of the canonical serialization. -/
def hash_payload (v : PyVal) : String := cjFuel (pyvalFuel v) v

/-- Render an optional string as JSON (`None` → null). -/
def optStr : Option String → PyVal
  | Option.none => PyVal.none
  | some s => PyVal.str s

/-- The wire name of a phase. -/
def phaseStr : Phase → String
  | Phase.propose => "propose"
  | Phase.execute => "execute"

/-- The request-hash payload of `handle_action`. -/
def request_hash_payload (plugin_id : String)
    (resource resource_id : Option String) (action_name : String)
    (phase : Phase) (args : List (String × PyVal)) : PyVal :=
  PyVal.dict [("plugin_id", PyVal.str plugin_id),
    ("resource", optStr resource), ("resource_id", optStr resource_id),
    ("action", PyVal.str action_name), ("phase", PyVal.str (phaseStr phase)),
    ("args", PyVal.dict args)]

/-- `_approval_fingerprint`. -/
def approval_fingerprint (capability_id : String)
    (resource_id : Option String) (args : List (String × PyVal)) : String :=
  hash_payload (PyVal.dict [("capability_id", PyVal.str capability_id),
    ("resource_id", optStr resource_id), ("args", PyVal.dict args)])

/-! ## The action mediator (`handle_action` in `api/actions.py`, and
`_handle_action` in `api/app.py`) -/

/-- `ActionRequest` (`core/models.py`). -/
structure ActionRequest where
  idempotency_key : Option String
  reason : Option String
  args : List (String × PyVal)

/-- The observable outcome of one action request (errors are the JSON
error responses the exception handler renders). -/
inductive HandlerOutcome where
  | error (e : ApiError)
  | replayed (status_code : Nat) (payload : PyVal)
  | needsApproval (approval_ticket_id : String) (summary : String)
      (proposed_effect : List (String × PyVal))
  | success (result : List (String × PyVal)) (summary : Option String)

/-- `ActionSuccessResponse.model_dump()`. -/
def success_dump (result : List (String × PyVal)) (summary : Option String) :
    PyVal :=
  PyVal.dict [("result", PyVal.dict result), ("summary", optStr summary)]

/-- The static runtime of the app (`api/runtime.py`): auth service, plugin
registry and policy engine. -/
structure Runtime where
  auth : AuthServiceState
  registry : List (String × Plugin)
  policy : PolicyEngineState

/-- The mutable runtime state: approval store and idempotency store. -/
structure RuntimeState where
  approvals : ApprovalStoreState
  idempotency : List (String × IdempotencyRecord)

/-- `_run_preview`: the propose-phase call when supported, else the real
call. -/
def run_preview (plugin : Plugin) (action : PluginActionManifest)
    (context : ActionContext) (args : List (String × PyVal)) :
    InternalActionResult :=
  if action.supports_propose = false then plugin.run context args
  else plugin.run { context with phase := Phase.propose } args

/-- `_enforce_action_policy`: a policy item with a blocked
`counterparty_domain` raises `POLICY_BLOCKED`. -/
def enforce_action_policy (policy : PolicyEngineState)
    (result : InternalActionResult) : Except ApiError Unit :=
  if result.policy_items.any
      (fun item => blockedDomainAttr policy.blocked_domains item) then
    Except.error ⟨403, "POLICY_BLOCKED"⟩
  else Except.ok ()

/-- `summary or f"{action.name} requires approval"` (empty string is
falsy). -/
def preview_summary (action : PluginActionManifest)
    (preview : InternalActionResult) : String :=
  match preview.summary with
  | some s => if s = "" then action.name ++ " requires approval" else s
  | Option.none => action.name ++ " requires approval"

/-- `proposed_effect or result` (empty dict is falsy). -/
def preview_effect (preview : InternalActionResult) :
    List (String × PyVal) :=
  if preview.proposed_effect.isEmpty then preview.result
  else preview.proposed_effect

/-- The dispatch-and-respond tail of the mediator: run the action, enforce
policy on its attestations, convert a blocked result, build the success
response, and record it in the idempotency store when the execute was
mutating and keyed.  The `Nat` counts plugin dispatches. -/
def dispatch_and_respond (policy : PolicyEngineState) (state : RuntimeState)
    (plugin : Plugin) (context : ActionContext)
    (action : PluginActionManifest) (phase : Phase) (payload : ActionRequest)
    (request_hash idempotency_scope : String) :
    HandlerOutcome × RuntimeState × Nat :=
  match enforce_action_policy policy (plugin.run context payload.args) with
  | Except.error e => (HandlerOutcome.error e, state, 1)
  | Except.ok _ =>
    if (plugin.run context payload.args).status = ActionStatus.blocked then
      (HandlerOutcome.error ⟨403, "POLICY_BLOCKED"⟩, state, 1)
    else if phase = Phase.execute ∧ payload.idempotency_key.getD "" ≠ "" ∧
        action.mutating = true then
      (HandlerOutcome.success (plugin.run context payload.args).result
        (plugin.run context payload.args).summary,
       ⟨state.approvals,
        idem_save state.idempotency idempotency_scope
          (payload.idempotency_key.getD "") request_hash 200
          (success_dump (plugin.run context payload.args).result
            (plugin.run context payload.args).summary)⟩,
       1)
    else
      (HandlerOutcome.success (plugin.run context payload.args).result
        (plugin.run context payload.args).summary, state, 1)

/-- The mediator pipeline from the propose-support check onward: shared
verbatim by `api/actions.py handle_action` (after auth) and
`api/app.py _handle_action` (which has no auth step). -/
def handle_action_rest (rt : Runtime) (state : RuntimeState)
    (plugin_id : String) (resource resource_id : Option String)
    (action_name : String) (phase : Phase) (payload : ActionRequest)
    (action : PluginActionManifest) : HandlerOutcome × RuntimeState × Nat :=
  if phase = Phase.propose ∧ action.supports_propose = false then
    (HandlerOutcome.error ⟨400, "ACTION_NOT_PROPOSABLE"⟩, state, 0)
  else
    match validate_action_request rt.policy action phase
        payload.idempotency_key payload.args with
    | Except.error e => (HandlerOutcome.error e, state, 0)
    | Except.ok _ =>
      match (if phase = Phase.execute ∧
          payload.idempotency_key.getD "" ≠ "" ∧ action.mutating = true then
        fetch_or_validate state.idempotency
          (plugin_id ++ ":" ++ resource.getD "_" ++ ":" ++ action_name)
          (payload.idempotency_key.getD "")
          (hash_payload (request_hash_payload plugin_id resource resource_id
            action_name phase payload.args))
      else Except.ok Option.none) with
      | Except.error e => (HandlerOutcome.error e, state, 0)
      | Except.ok (some record) =>
        (HandlerOutcome.replayed record.status_code record.payload, state, 0)
      | Except.ok Option.none =>
        match alookup rt.registry plugin_id with
        | Option.none => (HandlerOutcome.error ⟨404, "NOT_FOUND"⟩, state, 0)
        | some plugin =>
          if requires_approval rt.policy action phase then
            match find_for_fingerprint state.approvals action.capability_id
                (approval_fingerprint action.capability_id resource_id
                  payload.args) ["approved"] with
            | some _ =>
              dispatch_and_respond rt.policy state plugin
                ⟨plugin_id, phase, action, resource, resource_id⟩ action
                phase payload
                (hash_payload (request_hash_payload plugin_id resource
                  resource_id action_name phase payload.args))
                (plugin_id ++ ":" ++ resource.getD "_" ++ ":" ++ action_name)
            | Option.none =>
              match find_for_fingerprint state.approvals
                  action.capability_id
                  (approval_fingerprint action.capability_id resource_id
                    payload.args) ["pending"] with
              | some ticket =>
                (HandlerOutcome.needsApproval ticket.id ticket.summary
                  ticket.proposed_effect, state, 1)
              | Option.none =>
                match create_ticket state.approvals
                    (preview_summary action (run_preview plugin action
                      ⟨plugin_id, phase, action, resource, resource_id⟩
                      payload.args))
                    (preview_effect (run_preview plugin action
                      ⟨plugin_id, phase, action, resource, resource_id⟩
                      payload.args))
                    action.capability_id
                    (approval_fingerprint action.capability_id resource_id
                      payload.args) with
                | (ticket, approvals2) =>
                  (HandlerOutcome.needsApproval ticket.id ticket.summary
                    ticket.proposed_effect,
                   ⟨approvals2, state.idempotency⟩, 1)
          else
            dispatch_and_respond rt.policy state plugin
              ⟨plugin_id, phase, action, resource, resource_id⟩ action phase
              payload
              (hash_payload (request_hash_payload plugin_id resource
                resource_id action_name phase payload.args))
              (plugin_id ++ ":" ++ resource.getD "_" ++ ":" ++ action_name)

/-- `handle_action` (`api/actions.py`): authenticate, resolve the action,
authorize its capability, then the shared pipeline. -/
def handle_action (rt : Runtime) (state : RuntimeState)
    (headers : HttpHeaders) (plugin_id : String)
    (resource resource_id : Option String) (action_name : String)
    (phase : Phase) (payload : ActionRequest) :
    HandlerOutcome × RuntimeState × Nat :=
  match authenticate rt.auth headers with
  | Except.error e => (HandlerOutcome.error e, state, 0)
  | Except.ok principal =>
    match resolve_action rt.registry plugin_id action_name resource with
    | Except.error e => (HandlerOutcome.error e, state, 0)
    | Except.ok action =>
      match require_capability principal action.capability_id with
      | Except.error e => (HandlerOutcome.error e, state, 0)
      | Except.ok _ =>
        handle_action_rest rt state plugin_id resource resource_id
          action_name phase payload action

/-- `_handle_action` (`api/app.py`): the pipeline the live app registers.
It never authenticates and never checks a capability. -/
def app_handle_action (rt : Runtime) (state : RuntimeState)
    (plugin_id : String) (resource resource_id : Option String)
    (action_name : String) (phase : Phase) (payload : ActionRequest) :
    HandlerOutcome × RuntimeState × Nat :=
  match resolve_action rt.registry plugin_id action_name resource with
  | Except.error e => (HandlerOutcome.error e, state, 0)
  | Except.ok action =>
    handle_action_rest rt state plugin_id resource resource_id action_name
      phase payload action

/-- A concrete action manifest for demonstrations: a mutating routine
action on the `gmail` plugin. -/
def demoAction : PluginActionManifest :=
  ⟨"send", "gmail.send", "message", RiskTier.routine, "/:send/{phase}",
    true, false, ["origin"], Option.none, true⟩

/-- A concrete plugin whose `run_action` always succeeds. -/
def demoPlugin : Plugin :=
  ⟨[demoAction],
   fun _ _ => ⟨ActionStatus.success, [("ok", PyVal.bool true)], some "sent",
     [], []⟩⟩

/-- A concrete runtime with authentication required and the default
development token table (`AuthService._parse_tokens` with no
configuration). -/
def demoRuntime : Runtime :=
  ⟨⟨true, [("dev-local-token",
      ⟨"dev-local-token", "dev_local", "*", ["*"]⟩)]⟩,
   [("gmail", demoPlugin)],
   ⟨["blocked.example"], load_approval_defaults (fun _ => Option.none),
    [], [], [], []⟩⟩

/-- A request with no `Authorization` and no `X-Tailscale-Identity`
header. -/
def noHeaders : HttpHeaders := ⟨Option.none, Option.none⟩

/-- A concrete execute request body with an idempotency key. -/
def demoPayload : ActionRequest := ⟨some "idem-1", Option.none, []⟩

/-- C1 (code bug): with `require_auth = true`, a request with no
`Authorization` header fails `authenticate` with 401 `UNAUTHORIZED`, and
`api/actions.py handle_action` accordingly rejects it before any handler
logic; but `api/app.py _handle_action` — the pipeline the live app
registers — never authenticates: on the very same unauthenticated request
it dispatches to the plugin and mutates the idempotency store. -/
theorem app_bypasses_authentication :
    authenticate demoRuntime.auth noHeaders =
        Except.error ⟨401, "UNAUTHORIZED"⟩ ∧
      handle_action demoRuntime ⟨⟨[], 0⟩, []⟩ noHeaders "gmail" Option.none
          Option.none "send" Phase.execute demoPayload =
        (HandlerOutcome.error ⟨401, "UNAUTHORIZED"⟩, ⟨⟨[], 0⟩, []⟩, 0) ∧
      app_handle_action demoRuntime ⟨⟨[], 0⟩, []⟩ "gmail" Option.none
          Option.none "send" Phase.execute demoPayload =
        (HandlerOutcome.success [("ok", PyVal.bool true)] (some "sent"),
         ⟨⟨[], 0⟩,
          idem_save [] "gmail:_:send" "idem-1"
            (hash_payload (request_hash_payload "gmail" Option.none
              Option.none "send" Phase.execute [])) 200
            (success_dump [("ok", PyVal.bool true)] (some "sent"))⟩,
         1) :=
  ⟨rfl, rfl, rfl⟩

theorem dispatch_success_inv {policy : PolicyEngineState}
    {state : RuntimeState} {plugin : Plugin} {context : ActionContext}
    {action : PluginActionManifest} {payload : ActionRequest}
    {request_hash idempotency_scope : String}
    {result : List (String × PyVal)} {summary : Option String}
    {s1 : RuntimeState} {n : Nat}
    (h : dispatch_and_respond policy state plugin context action
      Phase.execute payload request_hash idempotency_scope =
      (HandlerOutcome.success result summary, s1, n))
    (hkeyne : payload.idempotency_key.getD "" ≠ "")
    (hmut : action.mutating = true) :
    result = (plugin.run context payload.args).result ∧
      summary = (plugin.run context payload.args).summary ∧
      s1 = ⟨state.approvals,
        idem_save state.idempotency idempotency_scope
          (payload.idempotency_key.getD "") request_hash 200
          (success_dump result summary)⟩ ∧
      n = 1 := by
  unfold dispatch_and_respond at h
  split at h
  · exact absurd h (by simp)
  · split at h
    · exact absurd h (by simp)
    · rw [if_pos ⟨rfl, hkeyne, hmut⟩] at h
      injection h with h1 h2
      injection h2 with h2 h3
      injection h1 with h1a h1b
      subst h1a
      subst h1b
      subst h3
      exact ⟨rfl, rfl, h2.symm, rfl⟩

theorem rest_success_inv {rt : Runtime} {s0 : RuntimeState}
    {plugin_id : String} {resource resource_id : Option String}
    {action_name : String} {payload : ActionRequest}
    {action : PluginActionManifest} {result : List (String × PyVal)}
    {summary : Option String} {s1 : RuntimeState} {n : Nat}
    (hmut : action.mutating = true)
    (hkeyne : payload.idempotency_key.getD "" ≠ "")
    (h : handle_action_rest rt s0 plugin_id resource resource_id action_name
      Phase.execute payload action =
      (HandlerOutcome.success result summary, s1, n)) :
    validate_action_request rt.policy action Phase.execute
        payload.idempotency_key payload.args = Except.ok () ∧
      ∃ plugin, alookup rt.registry plugin_id = some plugin ∧
        s1 = ⟨s0.approvals,
          idem_save s0.idempotency
            (plugin_id ++ ":" ++ resource.getD "_" ++ ":" ++ action_name)
            (payload.idempotency_key.getD "")
            (hash_payload (request_hash_payload plugin_id resource
              resource_id action_name Phase.execute payload.args)) 200
            (success_dump result summary)⟩ := by
  unfold handle_action_rest at h
  rw [if_neg (by simp)] at h
  split at h
  · exact absurd h (by simp)
  · rename_i u hval
    rw [if_pos ⟨rfl, hkeyne, hmut⟩] at h
    split at h
    · exact absurd h (by simp)
    · exact absurd h (by simp)
    · rename_i hfetch
      split at h
      · exact absurd h (by simp)
      · rename_i plugin hplug
        have hdisp : dispatch_and_respond rt.policy s0 plugin
            ⟨plugin_id, Phase.execute, action, resource, resource_id⟩ action
            Phase.execute payload
            (hash_payload (request_hash_payload plugin_id resource
              resource_id action_name Phase.execute payload.args))
            (plugin_id ++ ":" ++ resource.getD "_" ++ ":" ++ action_name) =
            (HandlerOutcome.success result summary, s1, n) := by
          split at h
          · split at h
            · exact h
            · split at h
              · exact absurd h (by simp)
              · exact absurd h (by simp)
          · exact h
        obtain ⟨hr, hs, hstate, -⟩ := dispatch_success_inv hdisp hkeyne hmut
        refine ⟨?_, plugin, hplug, ?_⟩
        · cases u
          exact hval
        · rw [hstate, hr, hs]

/-- A lookup hit whose stored request hash equals the incoming one is
returned by `fetch_or_validate`. -/
theorem fetch_or_validate_hit (records : List (String × IdempotencyRecord))
    (scope key rh : String) (sc : Nat) (pl : PyVal)
    (hs : alookup records (record_key scope key) = some ⟨rh, sc, pl⟩) :
    fetch_or_validate records scope key rh = Except.ok (some ⟨rh, sc, pl⟩) := by
  unfold fetch_or_validate
  rw [hs]
  exact if_neg (fun h => h rfl)

/-- C2: for every execute of a mutating action with an idempotency key
that completes successfully, the gateway records the response under
`(scope, idempotency_key)` with scope `{plugin_id}:{resource or "_"}:
{action_name}`, and a subsequent execute with the same plugin, resource,
resource id, action, phase, args and the same idempotency key returns the
stored `(status_code, payload)` verbatim — byte-equal to the first
response — without dispatching to the plugin again. -/
theorem execute_records_then_replays (rt : Runtime) (s0 : RuntimeState)
    (headers : HttpHeaders) (plugin_id : String)
    (resource resource_id : Option String) (action_name : String)
    (payload payload2 : ActionRequest) (k : String)
    (action : PluginActionManifest) (result : List (String × PyVal))
    (summary : Option String) (s1 : RuntimeState) (n : Nat)
    (hres : resolve_action rt.registry plugin_id action_name resource =
      Except.ok action)
    (hmut : action.mutating = true)
    (hkey : payload.idempotency_key = some k) (hk : k ≠ "")
    (hkey2 : payload2.idempotency_key = some k)
    (hargs : payload2.args = payload.args)
    (hfirst : handle_action rt s0 headers plugin_id resource resource_id
      action_name Phase.execute payload =
      (HandlerOutcome.success result summary, s1, n)) :
    alookup s1.idempotency
        (record_key
          (plugin_id ++ ":" ++ resource.getD "_" ++ ":" ++ action_name) k) =
      some ⟨hash_payload (request_hash_payload plugin_id resource resource_id
          action_name Phase.execute payload.args), 200,
        success_dump result summary⟩ ∧
      handle_action rt s1 headers plugin_id resource resource_id action_name
          Phase.execute payload2 =
        (HandlerOutcome.replayed 200 (success_dump result summary), s1, 0) := by
  have hkeyne : payload.idempotency_key.getD "" ≠ "" := by
    rw [hkey]
    simpa using hk
  unfold handle_action at hfirst
  cases hauth : authenticate rt.auth headers with
  | error e =>
    rw [hauth] at hfirst
    exact absurd hfirst (by simp)
  | ok principal =>
    simp only [hauth, hres] at hfirst
    cases hcap : require_capability principal action.capability_id with
    | error e =>
      simp only [hcap] at hfirst
      exact absurd hfirst (by simp)
    | ok u0 =>
      simp only [hcap] at hfirst
      obtain ⟨hval, plugin, hplug, hs1⟩ :=
        rest_success_inv hmut hkeyne hfirst
      have hstore : alookup s1.idempotency
          (record_key
            (plugin_id ++ ":" ++ resource.getD "_" ++ ":" ++ action_name)
            k) =
          some ⟨hash_payload (request_hash_payload plugin_id resource
              resource_id action_name Phase.execute payload.args), 200,
            success_dump result summary⟩ := by
        rw [hs1]
        show alookup (idem_save s0.idempotency _ _ _ _ _) _ = _
        unfold idem_save
        rw [hkey]
        exact alookup_aset_self _ _ _
      refine ⟨hstore, ?_⟩
      unfold handle_action
      simp only [hauth, hres, hcap]
      unfold handle_action_rest
      rw [if_neg (by simp)]
      have hval2 : validate_action_request rt.policy action Phase.execute
          payload2.idempotency_key payload2.args = Except.ok () := by
        rw [hkey2, hargs, ← hkey]
        exact hval
      split
      · rename_i e heq
        rw [hval2] at heq
        exact absurd heq (by simp)
      · rename_i u heq
        have hkeyne2 : payload2.idempotency_key.getD "" ≠ "" := by
          rw [hkey2]
          simpa using hk
        rw [if_pos ⟨rfl, hkeyne2, hmut⟩]
        split
        · rename_i e heq2
          rw [hkey2, hargs,
            show ((some k).getD "" : String) = k from rfl,
            fetch_or_validate_hit _ _ _ _ _ _ hstore] at heq2
          exact absurd heq2 (by simp)
        · rename_i record heq2
          rw [hkey2, hargs,
            show ((some k).getD "" : String) = k from rfl,
            fetch_or_validate_hit _ _ _ _ _ _ hstore] at heq2
          injection heq2 with heq2
          injection heq2 with heq2
          rw [← heq2]
        · rename_i heq2
          rw [hkey2, hargs,
            show ((some k).getD "" : String) = k from rfl,
            fetch_or_validate_hit _ _ _ _ _ _ hstore] at heq2
          exact absurd heq2 (by simp)

/-- A request carrying the development bearer token and a Tailscale
identity, which `authenticate` accepts against `demoRuntime`. -/
def authedHeaders : HttpHeaders :=
  ⟨some "Bearer dev-local-token", some "agent.ts.example"⟩

/-- The runtime state after the demo execute: the single idempotency
record the first call stores. -/
def replayState : RuntimeState :=
  ⟨⟨[], 0⟩,
   idem_save [] "gmail:_:send" "idem-1"
     (hash_payload (request_hash_payload "gmail" Option.none Option.none
       "send" Phase.execute [])) 200
     (success_dump [("ok", PyVal.bool true)] (some "sent"))⟩

theorem execute_records_then_replays_witness :
    alookup replayState.idempotency (record_key "gmail:_:send" "idem-1") =
      some ⟨hash_payload (request_hash_payload "gmail" Option.none
          Option.none "send" Phase.execute []), 200,
        success_dump [("ok", PyVal.bool true)] (some "sent")⟩ ∧
      handle_action demoRuntime replayState authedHeaders "gmail"
          Option.none Option.none "send" Phase.execute demoPayload =
        (HandlerOutcome.replayed 200
          (success_dump [("ok", PyVal.bool true)] (some "sent")),
         replayState, 0) :=
  execute_records_then_replays demoRuntime ⟨⟨[], 0⟩, []⟩ authedHeaders
    "gmail" Option.none Option.none "send" demoPayload demoPayload "idem-1"
    demoAction [("ok", PyVal.bool true)] (some "sent") replayState 1
    rfl rfl rfl (by decide) rfl rfl rfl
